import Mathlib

/-!
Verification development for the MoonCell-ModelHub admission-control simulator.
Python floats are modelled as exact rationals, Python ints as Nat/Int, and
Python `int(x)` as truncation toward zero.
-/

namespace MoonCell

/-- Truncation toward zero, the behaviour of Python `int()` on a float. -/
def truncRat (q : ℚ) : ℤ := if 0 ≤ q then ⌊q⌋ else ⌈q⌉

/-- Insert into a list sorted ascending by `key`, after existing equal keys
(stable, as Python `list.sort`). -/
def insertByKey {α : Type} (key : α → ℚ) (x : α) : List α → List α
  | [] => [x]
  | y :: ys => if key y ≤ key x then y :: insertByKey key x ys else x :: y :: ys

/-- Stable ascending sort by `key`, modelling Python `sorted` / `list.sort`. -/
def sortByKey {α : Type} (key : α → ℚ) : List α → List α
  | [] => []
  | x :: xs => insertByKey key x (sortByKey key xs)

/-- `percentile` of ab_test_simulator.py: index uses `math.ceil(p/100*n) - 1`. -/
def percentileCeil (values : List ℚ) (p : ℚ) : ℚ :=
  match values with
  | [] => 0
  | _ =>
    let arr := sortByKey id values
    let n : ℤ := arr.length
    let k : ℤ := min (n - 1) (max 0 (⌈(p / 100) * (n : ℚ)⌉ - 1))
    arr.getD k.toNat 0

/-- `percentile` of adaptive_bucket_ab.py, full_pipeline_vs_traditional.py and
the sweep scripts: index uses `int(p/100*n) - 1`. -/
def percentileTrunc (values : List ℚ) (p : ℚ) : ℚ :=
  match values with
  | [] => 0
  | _ =>
    let arr := sortByKey id values
    let n : ℤ := arr.length
    let k : ℤ := max 0 (min (n - 1) (truncRat ((p / 100) * (n : ℚ)) - 1))
    arr.getD k.toNat 0

/-- A fixed 4-vector, modelling the length-4 Python lists used per bucket. -/
structure Vec4 (α : Type) where
  v0 : α
  v1 : α
  v2 : α
  v3 : α
deriving DecidableEq, Repr

def Vec4.map {α β : Type} (f : α → β) (v : Vec4 α) : Vec4 β :=
  ⟨f v.v0, f v.v1, f v.v2, f v.v3⟩

def Vec4.zipWith {α β γ : Type} (f : α → β → γ) (a : Vec4 α) (b : Vec4 β) : Vec4 γ :=
  ⟨f a.v0 b.v0, f a.v1 b.v1, f a.v2 b.v2, f a.v3 b.v3⟩

def Vec4.sum (v : Vec4 ℚ) : ℚ := v.v0 + v.v1 + v.v2 + v.v3

def Vec4.sumN (v : Vec4 ℕ) : ℕ := v.v0 + v.v1 + v.v2 + v.v3

def Vec4.const {α : Type} (a : α) : Vec4 α := ⟨a, a, a, a⟩

def Vec4.All {α : Type} (P : α → Prop) (v : Vec4 α) : Prop :=
  P v.v0 ∧ P v.v1 ∧ P v.v2 ∧ P v.v3

/-- `Request` of ab_test_simulator.py (frozen dataclass). -/
structure Request where
  id : ℕ
  arrival_ts : ℚ
  input_tokens : ℕ
  output_tokens : ℕ
  stream_chunks : ℕ
  ttft_delay_sec : ℚ
  service_time_sec : ℚ
deriving DecidableEq, Repr

/-- `Request.total_tokens` property. -/
def Request.total_tokens (r : Request) : ℕ := r.input_tokens + r.output_tokens

/-- `NodeState` of ab_test_simulator.py. -/
structure NodeState where
  node_id : ℕ
  rpm_limit : ℕ
  tpm_limit : ℕ
  max_physical_concurrency : ℕ
  burst_rps_limit : ℚ
  inflight : ℕ
  rpm_tokens : ℚ
  tpm_tokens : ℚ
  last_refill_ts : ℚ
  starts_window : List ℚ
deriving DecidableEq, Repr

/-- A freshly constructed `NodeState` (`__post_init__` fills the buckets). -/
def NodeState.mk0 (i rpm tpm conc : ℕ) (burst : ℚ) : NodeState :=
  { node_id := i, rpm_limit := rpm, tpm_limit := tpm,
    max_physical_concurrency := conc, burst_rps_limit := burst,
    inflight := 0, rpm_tokens := rpm, tpm_tokens := tpm,
    last_refill_ts := 0, starts_window := [] }

/-- The `while self.starts_window and self.starts_window[0] < now - 1.0: popleft`
loop of `NodeState.refill`. -/
def dropOldStarts (now : ℚ) : List ℚ → List ℚ
  | [] => []
  | t :: ts => if t < now - 1 then dropOldStarts now ts else t :: ts

/-- `NodeState.refill` of ab_test_simulator.py. -/
def NodeState.refill (s : NodeState) (now : ℚ) : NodeState :=
  let dt := max 0 (now - s.last_refill_ts)
  if dt ≤ 0 then s
  else
    { s with
      rpm_tokens := min (s.rpm_limit : ℚ) (s.rpm_tokens + dt * ((s.rpm_limit : ℚ) / 60)),
      tpm_tokens := min (s.tpm_limit : ℚ) (s.tpm_tokens + dt * ((s.tpm_limit : ℚ) / 60)),
      last_refill_ts := now,
      starts_window := dropOldStarts now s.starts_window }

/-- `NodeState.can_start` of ab_test_simulator.py.  The Python method mutates
the node by the refill, so the updated node is returned alongside (ok, reason). -/
def NodeState.can_start (s : NodeState) (now : ℚ) (token_cost : ℕ)
    (allowed_concurrency : ℤ) : NodeState × Bool × String :=
  let s1 := s.refill now
  if (s1.inflight : ℤ) ≥ min (s1.max_physical_concurrency : ℤ) allowed_concurrency then
    (s1, false, "CONCURRENCY")
  else if (s1.starts_window.length : ℚ) ≥ s1.burst_rps_limit then
    (s1, false, "BURST")
  else if s1.rpm_tokens < 1 then
    (s1, false, "RATE_RPM")
  else if s1.tpm_tokens < (token_cost : ℚ) then
    (s1, false, "RATE_TPM")
  else (s1, true, "")

/-- `NodeState.start` of ab_test_simulator.py. -/
def NodeState.start (s : NodeState) (now : ℚ) (token_cost : ℕ) : NodeState :=
  { s with rpm_tokens := s.rpm_tokens - 1,
           tpm_tokens := s.tpm_tokens - (token_cost : ℚ),
           inflight := s.inflight + 1,
           starts_window := s.starts_window ++ [now] }

/-- `NodeState.finish` of ab_test_simulator.py (floored at zero). -/
def NodeState.finish (s : NodeState) : NodeState :=
  if s.inflight > 0 then { s with inflight := s.inflight - 1 } else s

/-- One entry of the `window_metrics` dict fed to `Controller.update`. -/
structure WindowMetrics where
  rate_limit : ℚ
  burst : ℚ
  p95_latency_ms : ℚ
  p95_ttft_ms : ℚ
  gc_freq : ℚ
deriving DecidableEq, Repr

/-- `FixedController` of ab_test_simulator.py. -/
structure FixedController where
  limit : ℤ
deriving DecidableEq, Repr

def FixedController.current_limit (c : FixedController) : ℤ := c.limit

def FixedController.update (c : FixedController) (_second : ℕ)
    (_m : WindowMetrics) : FixedController := c

/-- `AimdController` of ab_test_simulator.py. -/
structure AimdController where
  min_c : ℕ
  max_c : ℕ
  cwnd : ℚ
  ssthresh : ℤ
  cooldown : ℕ
deriving DecidableEq, Repr

/-- `AimdController.__init__`. -/
def AimdController.mk0 (min_c max_c init_c : ℕ) : AimdController :=
  { min_c := min_c, max_c := max_c, cwnd := init_c, ssthresh := 32, cooldown := 0 }

/-- `AimdController.current_limit`: `max(min_c, min(max_c, int(cwnd)))`. -/
def AimdController.current_limit (c : AimdController) : ℤ :=
  max (c.min_c : ℤ) (min (c.max_c : ℤ) (truncRat c.cwnd))

/-- The congestion test of `AimdController.update`. -/
abbrev AimdCongested (m : WindowMetrics) : Prop :=
  m.rate_limit > 0.06 ∨ m.burst > 0.03 ∨ m.p95_latency_ms > 2200 ∨ m.gc_freq > 4

/-- `AimdController.update` of ab_test_simulator.py.  Note the Python source
computes `int(self.cwnd * 0.7)` — an integer truncation — for the new
slow-start threshold. -/
def AimdController.update (c : AimdController) (_second : ℕ)
    (m : WindowMetrics) : AimdController :=
  if c.cooldown > 0 then { c with cooldown := c.cooldown - 1 }
  else if AimdCongested m then
    let ss : ℤ := max (c.min_c : ℤ) (truncRat (c.cwnd * 0.7))
    { c with ssthresh := ss, cwnd := max (c.min_c : ℚ) (ss : ℚ), cooldown := 2 }
  else if c.cwnd < (c.ssthresh : ℚ) then
    { c with cwnd := min (c.max_c : ℚ) (c.cwnd * 1.5) }
  else
    { c with cwnd := min (c.max_c : ℚ) (c.cwnd + 1) }

/-- `AimdParams` of tune_aimd.py. -/
structure AimdParams where
  min_c : ℕ
  max_c : ℕ
  init_c : ℕ
  ssthresh : ℕ
  decrease_factor : ℚ
  cooldown_windows : ℕ
  rate_limit_threshold : ℚ
  burst_threshold : ℚ
  p95_threshold_ms : ℚ
  gc_threshold : ℚ
  slow_start_factor : ℚ
  ai_step : ℚ
deriving DecidableEq, Repr

/-- `TunableAimdController` of tune_aimd.py. -/
structure TunableAimdController where
  p : AimdParams
  cwnd : ℚ
  ssthresh : ℚ
  cooldown : ℕ
deriving DecidableEq, Repr

/-- `TunableAimdController.__init__`. -/
def TunableAimdController.mk0 (p : AimdParams) : TunableAimdController :=
  { p := p, cwnd := p.init_c, ssthresh := p.ssthresh, cooldown := 0 }

/-- `TunableAimdController.current_limit`. -/
def TunableAimdController.current_limit (c : TunableAimdController) : ℤ :=
  max (c.p.min_c : ℤ) (min (c.p.max_c : ℤ) (truncRat c.cwnd))

/-- The congestion test of `TunableAimdController.update`. -/
abbrev TunCongested (p : AimdParams) (m : WindowMetrics) : Prop :=
  m.rate_limit > p.rate_limit_threshold ∨ m.burst > p.burst_threshold ∨
    m.p95_latency_ms > p.p95_threshold_ms ∨ m.gc_freq > p.gc_threshold

/-- `TunableAimdController.update` of tune_aimd.py (no truncation here:
`self.cwnd * self.p.decrease_factor` stays a float). -/
def TunableAimdController.update (c : TunableAimdController) (_second : ℕ)
    (m : WindowMetrics) : TunableAimdController :=
  if c.cooldown > 0 then { c with cooldown := c.cooldown - 1 }
  else if TunCongested c.p m then
    let ss : ℚ := max (c.p.min_c : ℚ) (c.cwnd * c.p.decrease_factor)
    { c with ssthresh := ss, cwnd := max (c.p.min_c : ℚ) ss,
             cooldown := c.p.cooldown_windows }
  else if c.cwnd < c.ssthresh then
    { c with cwnd := min (c.p.max_c : ℚ) (c.cwnd * c.p.slow_start_factor) }
  else
    { c with cwnd := min (c.p.max_c : ℚ) (c.cwnd + c.p.ai_step) }

/-- Fold a sequence of `(second, window_metrics)` updates over a Fixed
controller. -/
def FixedController.runUpdates (c : FixedController)
    (ms : List (ℕ × WindowMetrics)) : FixedController :=
  ms.foldl (fun c sm => c.update sm.1 sm.2) c

/-- Fold a sequence of `(second, window_metrics)` updates over an AIMD
controller. -/
def AimdController.runUpdates (c : AimdController)
    (ms : List (ℕ × WindowMetrics)) : AimdController :=
  ms.foldl (fun c sm => c.update sm.1 sm.2) c

/-- Fold a sequence of `(second, window_metrics)` updates over a tunable AIMD
controller. -/
def TunableAimdController.runUpdates (c : TunableAimdController)
    (ms : List (ℕ × WindowMetrics)) : TunableAimdController :=
  ms.foldl (fun c sm => c.update sm.1 sm.2) c

/-- The operations `run_simulation` performs on a single node, used to state
the token-bucket conservation invariant. -/
inductive NodeOp where
  | refill (now : ℚ)
  | start (now : ℚ) (cost : ℕ)
  | finish
deriving DecidableEq, Repr

def NodeState.applyOp (s : NodeState) : NodeOp → NodeState
  | .refill now => s.refill now
  | .start now cost => s.start now cost
  | .finish => s.finish

def NodeState.runOps (s : NodeState) (ops : List NodeOp) : NodeState :=
  ops.foldl NodeState.applyOp s

def NodeOp.time : NodeOp → Option ℚ
  | .refill now => some now
  | .start now _ => some now
  | .finish => none

/-- The timestamps carried by a sequence of node operations are
non-decreasing. -/
def TimesMono (ops : List NodeOp) : Prop :=
  (ops.filterMap NodeOp.time).Pairwise (· ≤ ·)

/-- The `eps = 1e-9` of `AdaptiveBucketAllocator._update_shares`. -/
def shareEps : ℚ := 1 / 1000000000

/-- The per-bucket score of `_update_shares`:
`0.35*req_share + 0.35*throughput_share + 0.20*token_share - 0.25*risk`. -/
def shareScore (arr acc tok rej : ℕ) (a_sum ok_sum tok_sum : ℚ) : ℚ :=
  let req_share := (arr : ℚ) / a_sum
  let throughput_share := (acc : ℚ) / ok_sum
  let token_share := (tok : ℚ) / tok_sum
  let risk := (rej : ℚ) / ((max 1 arr : ℕ) : ℚ)
  0.35 * req_share + 0.35 * throughput_share + 0.20 * token_share - 0.25 * risk

/-- The clamp `max(0.10, min(0.50, score))` of `_update_shares`. -/
def clampShare (x : ℚ) : ℚ := max 0.10 (min 0.50 x)

/-- The anti-oscillation step of `_update_shares`:
`old + max(-0.05, min(0.05, tgt - old))`. -/
def stepToward (old tgt : ℚ) : ℚ := old + max (-0.05) (min 0.05 (tgt - old))

/-- The `new_shares` list of `_update_shares`: per-bucket scores clamped to
[0.10, 0.50]. -/
def clampedScores (arrs accs toks rejs : Vec4 ℕ) : Vec4 ℚ :=
  let a_sum := (arrs.sumN : ℚ) + shareEps
  let ok_sum := (accs.sumN : ℚ) + shareEps
  let tok_sum := (toks.sumN : ℚ) + shareEps
  ⟨clampShare (shareScore arrs.v0 accs.v0 toks.v0 rejs.v0 a_sum ok_sum tok_sum),
   clampShare (shareScore arrs.v1 accs.v1 toks.v1 rejs.v1 a_sum ok_sum tok_sum),
   clampShare (shareScore arrs.v2 accs.v2 toks.v2 rejs.v2 a_sum ok_sum tok_sum),
   clampShare (shareScore arrs.v3 accs.v3 toks.v3 rejs.v3 a_sum ok_sum tok_sum)⟩

/-- The `target` list of `_update_shares`: clamped scores normalized to sum 1. -/
def shareTarget (arrs accs toks rejs : Vec4 ℕ) : Vec4 ℚ :=
  let ns := clampedScores arrs accs toks rejs
  ns.map (fun x => x / ns.sum)

/-- `AdaptiveBucketAllocator._update_shares`, as a function of the window
counters and the previous shares: move each share at most ±0.05 toward its
normalized target, then renormalize. -/
def updateSharesFrom (arrs accs toks rejs : Vec4 ℕ) (shares : Vec4 ℚ) : Vec4 ℚ :=
  let updated := Vec4.zipWith stepToward shares (shareTarget arrs accs toks rejs)
  updated.map (fun x => x / updated.sum)

/-- `AdaptiveBucketAllocator._smooth_boundary` (default `max_step_ratio = 0.15`;
note the `max(32, ...)` lower floor). -/
def smoothBoundary (old_v new_v : ℤ) : ℤ :=
  let raw : ℤ := truncRat (0.7 * (old_v : ℚ) + 0.3 * (new_v : ℚ))
  let step : ℤ := truncRat ((old_v : ℚ) * 0.15)
  let lo := max 32 (old_v - step)
  let hi := old_v + step
  max lo (min hi raw)

/-- `AdaptiveBucketAllocator` of adaptive_bucket_ab.py (the fields touched by
`on_window_end` and the admission path). -/
structure AdaptiveBucketAllocator where
  total_rpm : ℕ
  total_tpm : ℕ
  boundaries : ℤ × ℤ × ℤ
  shares : Vec4 ℚ
  rpm_tokens : Vec4 ℚ
  tpm_tokens : Vec4 ℚ
  last_refill : ℚ
  token_hist : List ℕ
  win_arrival : Vec4 ℕ
  win_accepted : Vec4 ℕ
  win_tokens : Vec4 ℕ
  win_reject : Vec4 ℕ
deriving DecidableEq, Repr

/-- `AdaptiveBucketAllocator.__init__`. -/
def AdaptiveBucketAllocator.mk0 (total_rpm total_tpm : ℕ) : AdaptiveBucketAllocator :=
  { total_rpm := total_rpm, total_tpm := total_tpm,
    boundaries := (300, 1200, 3800),
    shares := ⟨0.35, 0.35, 0.20, 0.10⟩,
    rpm_tokens := Vec4.const 0, tpm_tokens := Vec4.const 0, last_refill := 0,
    token_hist := [], win_arrival := Vec4.const 0, win_accepted := Vec4.const 0,
    win_tokens := Vec4.const 0, win_reject := Vec4.const 0 }

/-- `AdaptiveBucketAllocator._update_boundaries`. -/
def AdaptiveBucketAllocator.updateBoundaries (a : AdaptiveBucketAllocator) :
    AdaptiveBucketAllocator :=
  let data := a.token_hist.map (fun t => (t : ℚ))
  if data.length < 200 then a
  else
    let p40 := truncRat (percentileTrunc data 40)
    let p75 := truncRat (percentileTrunc data 75)
    let p92 := truncRat (percentileTrunc data 92)
    let b1 := smoothBoundary a.boundaries.1 p40
    let b2 := smoothBoundary a.boundaries.2.1 (max (p40 + 64) p75)
    let b3 := smoothBoundary a.boundaries.2.2 (max (p75 + 256) p92)
    if b1 < b2 ∧ b2 < b3 then { a with boundaries := (b1, b2, b3) } else a

/-- `AdaptiveBucketAllocator._update_shares` on the allocator state. -/
def AdaptiveBucketAllocator.updateShares (a : AdaptiveBucketAllocator) :
    AdaptiveBucketAllocator :=
  { a with shares :=
      updateSharesFrom a.win_arrival a.win_accepted a.win_tokens a.win_reject a.shares }

/-- `AdaptiveBucketAllocator.on_window_end`: boundaries, then shares, then the
window counters reset to zero. -/
def AdaptiveBucketAllocator.onWindowEnd (a : AdaptiveBucketAllocator) :
    AdaptiveBucketAllocator :=
  let a1 := a.updateBoundaries
  let a2 := a1.updateShares
  { a2 with win_arrival := Vec4.const 0, win_accepted := Vec4.const 0,
            win_tokens := Vec4.const 0, win_reject := Vec4.const 0 }

/-- What one re-balance window may have accumulated: the token-size history as
seen at the window end, plus the four per-bucket counters filled in by
`record_arrival` / `record_accept` / `record_reject` since the last reset.
Quantifying over these values covers every reachable accumulation. -/
structure WindowObs where
  hist : List ℕ
  arrivals : Vec4 ℕ
  accepts : Vec4 ℕ
  tokens : Vec4 ℕ
  rejects : Vec4 ℕ
deriving DecidableEq, Repr

/-- Install one window's accumulated observations into the allocator state. -/
def AdaptiveBucketAllocator.loadWindow (a : AdaptiveBucketAllocator)
    (w : WindowObs) : AdaptiveBucketAllocator :=
  { a with token_hist := w.hist, win_arrival := w.arrivals,
           win_accepted := w.accepts, win_tokens := w.tokens,
           win_reject := w.rejects }

/-- Run a sequence of re-balance windows: accumulate, then `on_window_end`. -/
def AdaptiveBucketAllocator.runWindows (a : AdaptiveBucketAllocator)
    (ws : List WindowObs) : AdaptiveBucketAllocator :=
  ws.foldl (fun a w => (a.loadWindow w).onWindowEnd) a

/-- The allocator invariant that actually survives re-balancing: shares sum
exactly to 1 with every share strictly inside (0, 1), and the three bucket
boundaries stay strictly increasing. -/
abbrev AllocInv (a : AdaptiveBucketAllocator) : Prop :=
  a.shares.sum = 1 ∧ Vec4.All (fun x => 0 < x ∧ x < 1) a.shares ∧
    a.boundaries.1 < a.boundaries.2.1 ∧ a.boundaries.2.1 < a.boundaries.2.2

/-- The metrics dict fed to `FullPipelinePolicy.on_window` in
full_pipeline_vs_traditional.py. -/
structure FullMetrics where
  p95_ttft_ms : ℚ
  p95_e2e_ms : ℚ
  sim_gc_freq : ℚ
  reject_rate : ℚ
deriving DecidableEq, Repr

/-- `FullPipelinePolicy` of full_pipeline_vs_traditional.py. -/
structure FullPipelinePolicy where
  fixed_limit : ℤ
  total_rpm : ℕ
  total_tpm : ℕ
  alpha : ℚ
  boundaries : ℤ × ℤ × ℤ
  shares : Vec4 ℚ
  rpm_tokens : Vec4 ℚ
  tpm_tokens : Vec4 ℚ
  last_refill : ℚ
  hist_tokens : List ℕ
  win_arrival : Vec4 ℕ
  win_accept : Vec4 ℕ
  win_tokens : Vec4 ℕ
  win_reject : Vec4 ℕ
  est_rat_ema : ℚ
deriving DecidableEq, Repr

/-- `FullPipelinePolicy.__init__`. -/
def FullPipelinePolicy.mk0 (total_rpm total_tpm : ℕ) (fixed_limit : ℤ) :
    FullPipelinePolicy :=
  { fixed_limit := fixed_limit, total_rpm := total_rpm, total_tpm := total_tpm,
    alpha := 1, boundaries := (300, 1200, 3800),
    shares := ⟨0.35, 0.35, 0.20, 0.10⟩,
    rpm_tokens := Vec4.const 0, tpm_tokens := Vec4.const 0, last_refill := 0,
    hist_tokens := [], win_arrival := Vec4.const 0, win_accept := Vec4.const 0,
    win_tokens := Vec4.const 0, win_reject := Vec4.const 0, est_rat_ema := 1 }

/-- `FullPipelinePolicy._refill`: alpha scales both RPM and TPM budgets. -/
def FullPipelinePolicy.refill (f : FullPipelinePolicy) (now : ℚ) :
    FullPipelinePolicy :=
  let dt := max 0 (now - f.last_refill)
  if dt ≤ 0 then f
  else
    let eff_rpm := (f.total_rpm : ℚ) * f.alpha
    let eff_tpm := (f.total_tpm : ℚ) * f.alpha
    let rr := f.shares.map (fun sh => eff_rpm * sh / 60)
    let tr := f.shares.map (fun sh => eff_tpm * sh / 60)
    { f with
      rpm_tokens := Vec4.zipWith (fun r cur => min (r * 3) (cur + r * dt)) rr f.rpm_tokens,
      tpm_tokens := Vec4.zipWith (fun r cur => min (r * 3) (cur + r * dt)) tr f.tpm_tokens,
      last_refill := now }

/-- `FullPipelinePolicy._smooth_boundary` (no `max(32, ...)` floor here). -/
def smoothBoundaryFP (old_v new_v : ℤ) : ℤ :=
  let raw : ℤ := truncRat (0.7 * (old_v : ℚ) + 0.3 * (new_v : ℚ))
  let step : ℤ := truncRat ((old_v : ℚ) * 0.15)
  max (old_v - step) (min (old_v + step) raw)

/-- `FullPipelinePolicy._rebalance_buckets`: a single early return when fewer
than 200 token-size samples exist (shares and counters untouched in that case),
otherwise boundaries, shares (same formulas as the adaptive allocator) and a
counter reset. -/
def FullPipelinePolicy.rebalanceBuckets (f : FullPipelinePolicy) :
    FullPipelinePolicy :=
  if f.hist_tokens.length < 200 then f
  else
    let arr := f.hist_tokens.map (fun t => (t : ℚ))
    let p40 := truncRat (percentileTrunc arr 40)
    let p75 := truncRat (percentileTrunc arr 75)
    let p92 := truncRat (percentileTrunc arr 92)
    let b1 := smoothBoundaryFP f.boundaries.1 p40
    let b2 := smoothBoundaryFP f.boundaries.2.1 (max (p40 + 64) p75)
    let b3 := smoothBoundaryFP f.boundaries.2.2 (max (p75 + 256) p92)
    let f1 := if b1 < b2 ∧ b2 < b3 then { f with boundaries := (b1, b2, b3) } else f
    let newShares :=
      updateSharesFrom f1.win_arrival f1.win_accept f1.win_tokens f1.win_reject f1.shares
    { f1 with shares := newShares,
              win_arrival := Vec4.const 0, win_accept := Vec4.const 0,
              win_tokens := Vec4.const 0, win_reject := Vec4.const 0 }

/-- The congestion test of `FullPipelinePolicy.on_window`. -/
abbrev FullCongested (m : FullMetrics) : Prop :=
  m.p95_ttft_ms > 1400 ∨ m.sim_gc_freq > 1.8 ∨ m.reject_rate > 0.50

/-- The all-clear test of `FullPipelinePolicy.on_window` (its relax branch
requires all three signals strictly below the lower thresholds). -/
abbrev FullAllClear (m : FullMetrics) : Prop :=
  m.p95_ttft_ms < 1150 ∧ m.sim_gc_freq < 1.2 ∧ m.reject_rate < 0.40

/-- `FullPipelinePolicy.on_window`: alpha suppression update, then the bucket
re-balance. -/
def FullPipelinePolicy.onWindow (f : FullPipelinePolicy) (m : FullMetrics) :
    FullPipelinePolicy :=
  let f1 :=
    if FullCongested m then { f with alpha := max 0.65 (f.alpha * 0.92) }
    else if FullAllClear m then { f with alpha := min 1 (f.alpha + 0.02) }
    else f
  f1.rebalanceBuckets

/-- Fold a sequence of `on_window` metric inputs over a full-pipeline policy. -/
def FullPipelinePolicy.runWindows (f : FullPipelinePolicy)
    (ms : List FullMetrics) : FullPipelinePolicy :=
  ms.foldl FullPipelinePolicy.onWindow f

/-- `PoolFirstPolicy` of long_ratio_sweep_pool_vs_traditional.py. -/
structure PoolFirstPolicy where
  core : ℕ
  max_size : ℕ
  allocated : ℕ
  active : ℕ
  idle : List ℕ
deriving DecidableEq, Repr

/-- `PoolFirstPolicy.__init__`: `allocated = core`, `idle = deque(range(core))`. -/
def PoolFirstPolicy.mk0 (core max_size : ℕ) : PoolFirstPolicy :=
  { core := core, max_size := max_size, allocated := core, active := 0,
    idle := List.range core }

/-- `PoolFirstPolicy.acquire_slot`: reuse an idle slot, else grow up to
`max_size`, else fail. -/
def PoolFirstPolicy.acquire_slot (p : PoolFirstPolicy) : PoolFirstPolicy × Bool :=
  match p.idle with
  | _ :: rest => ({ p with idle := rest, active := p.active + 1 }, true)
  | [] =>
    if p.allocated < p.max_size then
      ({ p with allocated := p.allocated + 1, active := p.active + 1 }, true)
    else (p, false)

/-- `PoolFirstPolicy.release_slot` (no-op when nothing is active). -/
def PoolFirstPolicy.release_slot (p : PoolFirstPolicy) : PoolFirstPolicy :=
  if p.active > 0 then { p with active := p.active - 1, idle := p.idle ++ [1] }
  else p

/-- The pool operations `run_sim` performs: a successful-or-failed acquire, and
a release (on completion or after a failed node start). -/
inductive PoolOp where
  | acquire
  | release
deriving DecidableEq, Repr

def PoolFirstPolicy.applyOp (p : PoolFirstPolicy) : PoolOp → PoolFirstPolicy
  | .acquire => p.acquire_slot.1
  | .release => p.release_slot

def PoolFirstPolicy.runOps (p : PoolFirstPolicy) (ops : List PoolOp) :
    PoolFirstPolicy :=
  ops.foldl PoolFirstPolicy.applyOp p

/-- The Pool-First structural invariant of claim C10. -/
abbrev PoolInv (p : PoolFirstPolicy) : Prop :=
  p.active + p.idle.length = p.allocated ∧ 0 ≤ p.active ∧
    p.core ≤ p.allocated ∧ p.allocated ≤ p.max_size

/-- `Inflight` of ab_test_simulator.py. -/
structure Inflight where
  req : Request
  start_ts : ℚ
  finish_ts : ℚ
  node_id : ℕ
deriving DecidableEq, Repr

/-- One per-second record appended to `per_sec` by `run_simulation`. -/
structure SecRecord where
  second : ℕ
  accepted : ℕ
  rejected : ℕ
  burst_reject : ℕ
  rate_reject : ℕ
  p95_latency_ms : ℚ
  p95_ttft_ms : ℚ
  controller_limit : ℤ
  sim_gc_freq : ℕ
deriving DecidableEq, Repr

/-- The controller interface consumed polymorphically by the run driver:
`current_limit()` and `update(second, window_metrics)`. -/
structure ControllerOps (σ : Type) where
  limit : σ → ℤ
  update : σ → ℕ → WindowMetrics → σ

/-- The mutable state of `run_simulation` in ab_test_simulator.py.
`timeoutLog` and `admittedLog` are ghost logs of the request ids counted as
QUEUE_TIMEOUT and admitted, recorded exactly where the code increments the
corresponding counters; `timeoutCount` mirrors
`rejected_reason["QUEUE_TIMEOUT"]`. -/
structure SimState (σ : Type) where
  remaining : List Request
  queue : List Request
  nodes : List NodeState
  ctrl : σ
  inflight : List Inflight
  now : ℚ
  tickCount : ℕ
  secCursor : ℕ
  accepted : ℕ
  rejected : ℕ
  accepted_tokens : ℕ
  allocationUnits : ℕ
  timeoutCount : ℕ
  timeoutLog : List ℕ
  admittedLog : List ℕ
  latAll : List ℚ
  ttftAll : List ℚ
  waitAll : List ℚ
  secAccepted : ℕ
  secRejected : ℕ
  secBurst : ℕ
  secRateLimit : ℕ
  secLat : List ℚ
  secTtft : List ℚ
  gcCounter : ℕ
  youngHeap : ℕ
  peakConcurrency : ℕ
  perSec : List SecRecord

/-- Total in-flight count across the node list (`sum(n.inflight for n in nodes)`). -/
def sumInflight : List NodeState → ℕ
  | [] => 0
  | n :: ns => n.inflight + sumInflight ns

/-- Apply `f` to the element at position `i` (Python `nodes[i].finish()` style
in-place update); out-of-range indices leave the list unchanged. -/
def modifyIdx {α : Type} (f : α → α) : ℕ → List α → List α
  | _, [] => []
  | 0, a :: as => f a :: as
  | n + 1, a :: as => a :: modifyIdx f n as

/-- The arrival loop of one tick: move every due request (arrival ≤ now) from
the input stream to the back of the queue, in order. -/
def arrivalsLoop (now : ℚ) : List Request → List Request → List Request × List Request
  | [], queueAcc => ([], queueAcc)
  | r :: rest, queueAcc =>
    if r.arrival_ts ≤ now then arrivalsLoop now rest (queueAcc ++ [r])
    else (r :: rest, queueAcc)

def arrivalsPhase {σ : Type} (st : SimState σ) : SimState σ :=
  let pr := arrivalsLoop st.now st.remaining st.queue
  { st with remaining := pr.1, queue := pr.2 }

/-- The completion block of one tick: release the node slot of every flight
whose finish time has passed, record its latency samples, and drop it from the
in-flight set by request id. -/
def completionsPhase {σ : Type} (st : SimState σ) : SimState σ :=
  let completed := st.inflight.filter (fun x => decide (x.finish_ts ≤ st.now))
  if completed.isEmpty then st
  else
    let nodes1 := completed.foldl (fun ns c => modifyIdx NodeState.finish c.node_id ns) st.nodes
    let lats := completed.map (fun c => (c.finish_ts - c.req.arrival_ts) * 1000)
    let waits := completed.map (fun c => (c.start_ts - c.req.arrival_ts) * 1000)
    let ttfts := completed.map
      (fun c => (c.start_ts - c.req.arrival_ts + c.req.ttft_delay_sec) * 1000)
    let doneIds := completed.map (fun c => c.req.id)
    { st with nodes := nodes1,
              inflight := st.inflight.filter (fun x => decide (x.req.id ∉ doneIds)),
              latAll := st.latAll ++ lats,
              ttftAll := st.ttftAll ++ ttfts,
              waitAll := st.waitAll ++ waits,
              secLat := st.secLat ++ lats,
              secTtft := st.secTtft ++ ttfts }

/-- The queue-timeout loop of one tick: pop stale heads, counting each once as
QUEUE_TIMEOUT.  The first list argument is the queue being consumed. -/
def timeoutsLoop {σ : Type} (timeout : ℚ) : List Request → SimState σ → SimState σ
  | [], st => { st with queue := [] }
  | r :: rest, st =>
    if st.now - r.arrival_ts > timeout then
      timeoutsLoop timeout rest
        { st with rejected := st.rejected + 1, secRejected := st.secRejected + 1,
                  timeoutCount := st.timeoutCount + 1,
                  timeoutLog := st.timeoutLog ++ [r.id] }
    else { st with queue := r :: rest }

def timeoutsPhase {σ : Type} (timeout : ℚ) (st : SimState σ) : SimState σ :=
  timeoutsLoop timeout st.queue st

/-- Order the sampled node indices ascending by current in-flight count,
stably (Python `sample.sort(key=lambda n: n.inflight)`). -/
def sortSample (nodes : List NodeState) (idxs : List ℕ) : List ℕ :=
  sortByKey (fun i => (((nodes[i]?).map NodeState.inflight).getD 0 : ℕ)) idxs

/-- Try `can_start`/`start` on the sampled nodes in order until one succeeds
or all fail.  Every attempted node is refilled (the Python method mutates the
node), the last failure reason is remembered, and on success the node is
started and the loop stops.  Returns the updated node list, the index of the
started node when any, and the `fail_reason` variable. -/
def tryNodes (now : ℚ) (cost : ℕ) (cap : ℤ) :
    List ℕ → List NodeState → String → List NodeState × Option ℕ × String
  | [], nodes, failReason => (nodes, none, failReason)
  | i :: rest, nodes, failReason =>
    match nodes[i]? with
    | none => tryNodes now cost cap rest nodes failReason
    | some nd =>
      let r := nd.can_start now cost cap
      if r.2.1 then (nodes.set i (r.1.start now cost), some i, failReason)
      else tryNodes now cost cap rest (nodes.set i r.1) r.2.2

/-- The admission loop of one tick: while the queue is non-empty and the total
in-flight count is below the controller cap, sample nodes, try them
least-loaded-first, and either admit the head (and continue) or stop at the
first non-start.  The first list argument is the queue being consumed;
`total` mirrors the Python `total_inflight` local. -/
def admissionLoop {σ : Type} (oracle : ℕ → List ℕ) (cap : ℤ) :
    List Request → ℕ → ℕ → SimState σ → SimState σ
  | [], _, _, st => { st with queue := [] }
  | req :: rest, total, attempt, st =>
    if (total : ℤ) < cap then
      let sample := sortSample st.nodes (oracle attempt)
      let res := tryNodes st.now req.total_tokens cap sample st.nodes "CONCURRENCY"
      match res.2.1 with
      | some i =>
        let ndid := (((st.nodes)[i]?).map NodeState.node_id).getD 0
        let heap1 := st.youngHeap + req.stream_chunks * 1024 + req.output_tokens * 16
        let gcInc := decide (heap1 > 3000000)
        admissionLoop oracle cap rest (total + 1) (attempt + 1)
          { st with nodes := res.1,
                    inflight := st.inflight ++
                      [⟨req, st.now, st.now + req.service_time_sec, ndid⟩],
                    accepted := st.accepted + 1,
                    secAccepted := st.secAccepted + 1,
                    accepted_tokens := st.accepted_tokens + req.total_tokens,
                    allocationUnits := st.allocationUnits + req.stream_chunks * 3 + 8,
                    admittedLog := st.admittedLog ++ [req.id],
                    youngHeap := if gcInc then heap1 * 35 / 100 else heap1,
                    gcCounter := if gcInc then st.gcCounter + 1 else st.gcCounter }
      | none =>
        let failReason := res.2.2
        { st with queue := req :: rest,
                  nodes := res.1,
                  secRateLimit :=
                    if failReason = "RATE_RPM" ∨ failReason = "RATE_TPM" then
                      st.secRateLimit + 1
                    else st.secRateLimit,
                  secBurst :=
                    if failReason = "BURST" then st.secBurst + 1 else st.secBurst }
    else { st with queue := req :: rest }

def admissionPhase {σ : Type} (ops : ControllerOps σ) (oracle : ℕ → ℕ → List ℕ)
    (st : SimState σ) : SimState σ :=
  admissionLoop (oracle st.tickCount) (ops.limit st.ctrl) st.queue
    (sumInflight st.nodes) 0 st

/-- The body of the per-second metrics rollover: finalize the window, update
the controller, emit one time-series record, reset the accumulators. -/
def rolloverStep {σ : Type} (ops : ControllerOps σ) (st : SimState σ) : SimState σ :=
  let p95 := percentileCeil st.secLat 95
  let p95t := percentileCeil st.secTtft 95
  let total : ℕ := max 1 (st.secAccepted + st.secRejected)
  let m : WindowMetrics :=
    { rate_limit := (st.secRateLimit : ℚ) / (total : ℚ),
      burst := (st.secBurst : ℚ) / (total : ℚ),
      p95_latency_ms := p95,
      p95_ttft_ms := p95t,
      gc_freq := (st.gcCounter : ℚ) }
  let ctrl1 := ops.update st.ctrl st.secCursor m
  let rec1 : SecRecord :=
    { second := st.secCursor, accepted := st.secAccepted, rejected := st.secRejected,
      burst_reject := st.secBurst, rate_reject := st.secRateLimit,
      p95_latency_ms := p95, p95_ttft_ms := p95t,
      controller_limit := ops.limit ctrl1, sim_gc_freq := st.gcCounter }
  { st with ctrl := ctrl1, perSec := st.perSec ++ [rec1], secCursor := st.secCursor + 1,
            secAccepted := 0, secRejected := 0, secBurst := 0, secRateLimit := 0,
            secLat := [], secTtft := [], gcCounter := 0 }

/-- The `while now >= sec_cursor + 1.0` rollover loop, fuel-bounded.  With the
0.02s tick of the source at most one iteration fires per tick, so the fuel of
2 given by `tick` never runs out. -/
def rolloverLoop {σ : Type} (ops : ControllerOps σ) : ℕ → SimState σ → SimState σ
  | 0, st => st
  | fuel + 1, st =>
    if st.now ≥ (st.secCursor : ℚ) + 1 then rolloverLoop ops fuel (rolloverStep ops st)
    else st

/-- The tick step `dt = 0.02` of `run_simulation`. -/
def simDt : ℚ := 1 / 50

/-- The queue timeout 1.2s of `run_simulation`. -/
def simTimeout : ℚ := 12 / 10

/-- One iteration of the `while now <= end_time` loop of `run_simulation`:
arrivals, completions, queue timeouts, admission, peak tracking, metrics
rollover, advance the clock.  `oracle` resolves the `random.sample` node
choice for each (tick, admission attempt). -/
def tick {σ : Type} (ops : ControllerOps σ) (oracle : ℕ → ℕ → List ℕ)
    (st : SimState σ) : SimState σ :=
  let st1 := arrivalsPhase st
  let st2 := completionsPhase st1
  let st3 := timeoutsPhase simTimeout st2
  let st4 := admissionPhase ops oracle st3
  let st5 := { st4 with peakConcurrency := max st4.peakConcurrency (sumInflight st4.nodes) }
  let st6 := rolloverLoop ops 2 st5
  { st6 with now := st6.now + simDt, tickCount := st6.tickCount + 1 }

/-- The initial simulation state of `run_simulation`. -/
def initState {σ : Type} (reqs : List Request) (nodes : List NodeState) (ctrl : σ) :
    SimState σ :=
  { remaining := reqs, queue := [], nodes := nodes, ctrl := ctrl, inflight := [],
    now := 0, tickCount := 0, secCursor := 0, accepted := 0, rejected := 0,
    accepted_tokens := 0, allocationUnits := 0, timeoutCount := 0, timeoutLog := [],
    admittedLog := [], latAll := [], ttftAll := [], waitAll := [], secAccepted := 0,
    secRejected := 0, secBurst := 0, secRateLimit := 0, secLat := [], secTtft := [],
    gcCounter := 0, youngHeap := 0, peakConcurrency := 0, perSec := [] }

/-- Run `n` ticks of the loop. -/
def runTicks {σ : Type} (ops : ControllerOps σ) (oracle : ℕ → ℕ → List ℕ) :
    ℕ → SimState σ → SimState σ
  | 0, st => st
  | n + 1, st => runTicks ops oracle n (tick ops oracle st)

/-- The controller bundles for the two concrete controller classes. -/
def aimdOps : ControllerOps AimdController :=
  ⟨AimdController.current_limit, AimdController.update⟩

def fixedOps : ControllerOps FixedController :=
  ⟨FixedController.current_limit, FixedController.update⟩

/-- The failure `run_simulation` hits before its loop: `max(r.arrival_ts for r
in reqs)` raises on an empty sequence.  No other validation exists. -/
inductive SimError where
  | emptyInput
deriving DecidableEq, Repr

def exceptIsOk {ε α : Type} : Except ε α → Bool
  | .ok _ => true
  | .error _ => false

/-- `max(r.arrival_ts for r in reqs)` over a non-empty list. -/
def maxArrival : List Request → ℚ
  | [] => 0
  | r :: rs => rs.foldl (fun m x => max m x.arrival_ts) r.arrival_ts

/-- Number of iterations of `while now <= end_time` starting from `now = 0`
with `dt = 0.02`. -/
def numTicks (endTime : ℚ) : ℕ := (⌊endTime * 50⌋ + 1).toNat

/-- `run_simulation` of ab_test_simulator.py as the run driver entry point.
The only input it rejects is the empty sequence (Python `max()` raises before
any tick executes); there is no sortedness validation in the source. -/
def runSimulation {σ : Type} (ops : ControllerOps σ) (oracle : ℕ → ℕ → List ℕ)
    (reqs : List Request) (ctrl : σ) (nodes : List NodeState) :
    Except SimError (SimState σ) :=
  match reqs with
  | [] => .error .emptyInput
  | r :: rs =>
    let endTime := maxArrival (r :: rs) + 20
    .ok (runTicks ops oracle (numTicks endTime) (initState (r :: rs) nodes ctrl))

/-- The input sequence sorted by non-decreasing arrival timestamp. -/
abbrev ArrivalsSorted (reqs : List Request) : Prop :=
  List.Chain' (· ≤ ·) (reqs.map Request.arrival_ts)

/-- A single node: ample rate budgets, physical concurrency 20, burst limit
100 — only the concurrency interplay matters below. -/
def cxNode : NodeState := NodeState.mk0 0 1000 1000000 20 100

/-- Eight chunk-heavy requests all arriving at t = 0 with 100s service time —
long enough that none completes during the run prefix examined. -/
def cxReq (i : ℕ) : Request :=
  { id := i, arrival_ts := 0, input_tokens := 0, output_tokens := 0,
    stream_chunks := 3000, ttft_delay_sec := 0, service_time_sec := 100 }

def cxReqs : List Request := (List.range 8).map cxReq

/-- With a single node, `random.sample` always returns that node. -/
def cxOracle : ℕ → ℕ → List ℕ := fun _ _ => [0]

/-- `AimdController` with its default construction parameters. -/
def cxCtrl : AimdController := AimdController.mk0 4 80 8

/-- The state after 51 ticks (t = 0 … 1.0): all eight requests admitted in
tick 0 under cap 8, then the first metrics window reports gc_freq = 8 > 4 and
the controller multiplicatively decreases its window to 5. -/
def cxFinal : SimState AimdController :=
  runTicks aimdOps cxOracle 51 (initState cxReqs [cxNode] cxCtrl)

/-- The all-admissions-in-bucket-3 window observations driving the adaptive
allocator's shares toward the fixed point (1/8, 1/8, 1/8, 5/8). -/
def cxWindow : WindowObs :=
  { hist := [], arrivals := ⟨0, 0, 0, 1000⟩, accepts := ⟨0, 0, 0, 1000⟩,
    tokens := ⟨0, 0, 0, 1000⟩, rejects := ⟨0, 0, 0, 0⟩ }

def cxAlloc : AdaptiveBucketAllocator :=
  (AdaptiveBucketAllocator.mk0 6900 3867000).runWindows (List.replicate 6 cxWindow)

/-- A congested metrics window for the basic AIMD controller
(rate-limited fraction 1 > 0.06). -/
def cxCongested : WindowMetrics :=
  { rate_limit := 1, burst := 0, p95_latency_ms := 0, p95_ttft_ms := 0, gc_freq := 0 }

/-- A congested window for the full pipeline (TTFT p95 1500ms > 1400). -/
def cxFullHot : FullMetrics :=
  { p95_ttft_ms := 1500, p95_e2e_ms := 0, sim_gc_freq := 0, reject_rate := 0 }

/-- A middling window: TTFT p95 1300ms is neither above the 1400 suppression
threshold nor below the 1150 relax threshold. -/
def cxFullMid : FullMetrics :=
  { p95_ttft_ms := 1300, p95_e2e_ms := 0, sim_gc_freq := 0, reject_rate := 0 }

def cxFullPolicy : FullPipelinePolicy :=
  ((FullPipelinePolicy.mk0 6900 3867000 95).onWindow cxFullHot).onWindow cxFullMid

/-- Two requests out of arrival order (t = 1 then t = 0). -/
def cxUnsorted : List Request :=
  [{ id := 0, arrival_ts := 1, input_tokens := 1, output_tokens := 1,
     stream_chunks := 4, ttft_delay_sec := 0.1, service_time_sec := 0.5 },
   { id := 1, arrival_ts := 0, input_tokens := 1, output_tokens := 1,
     stream_chunks := 4, ttft_delay_sec := 0.1, service_time_sec := 0.5 }]

/-- The request ids of the four disjoint places a request can sit in during a
run: not yet arrived, queued, counted as QUEUE_TIMEOUT, admitted. -/
def poolOf (rem q : List Request) (tlog adm : List ℕ) : List ℕ :=
  rem.map Request.id ++ q.map Request.id ++ tlog ++ adm

def poolIds {σ : Type} (st : SimState σ) : List ℕ :=
  poolOf st.remaining st.queue st.timeoutLog st.admittedLog

/-- A node poised to fail the burst check: three admissions already in the
1-second window against a burst limit of 2. -/
def wNode : NodeState :=
  { NodeState.mk0 0 10 100 5 2 with starts_window := [0, 0, 0] }

def wParams : AimdParams :=
  { min_c := 6, max_c := 95, init_c := 10, ssthresh := 32,
    decrease_factor := 0.7, cooldown_windows := 2, rate_limit_threshold := 0.06,
    burst_threshold := 0.03, p95_threshold_ms := 2200, gc_threshold := 4,
    slow_start_factor := 1.5, ai_step := 1 }

/-- A tunable AIMD controller sitting in cooldown. -/
def wTunCooling : TunableAimdController :=
  { p := wParams, cwnd := 10, ssthresh := 20, cooldown := 3 }

/-- A clear (non-congested) metrics window. -/
def wCalm : WindowMetrics :=
  { rate_limit := 0, burst := 0, p95_latency_ms := 100, p95_ttft_ms := 80, gc_freq := 0 }

/-- An all-clear full-pipeline metrics window. -/
def wFullCalm : FullMetrics :=
  { p95_ttft_ms := 900, p95_e2e_ms := 1000, sim_gc_freq := 0, reject_rate := 0.1 }

/-! ## Helper lemmas -/

theorem refill_inflight (s : NodeState) (now : ℚ) :
    (s.refill now).inflight = s.inflight := by
  simp only [NodeState.refill]; split <;> rfl

theorem refill_phys (s : NodeState) (now : ℚ) :
    (s.refill now).max_physical_concurrency = s.max_physical_concurrency := by
  simp only [NodeState.refill]; split <;> rfl

theorem refill_rpm_limit (s : NodeState) (now : ℚ) :
    (s.refill now).rpm_limit = s.rpm_limit := by
  simp only [NodeState.refill]; split <;> rfl

theorem refill_tpm_limit (s : NodeState) (now : ℚ) :
    (s.refill now).tpm_limit = s.tpm_limit := by
  simp only [NodeState.refill]; split <;> rfl

theorem refill_rpm_le (s : NodeState) (now : ℚ) (h : s.rpm_tokens ≤ (s.rpm_limit : ℚ)) :
    (s.refill now).rpm_tokens ≤ ((s.refill now).rpm_limit : ℚ) := by
  simp only [NodeState.refill]; split
  · exact h
  · simp only [min_le_iff]; left; rfl

theorem refill_tpm_le (s : NodeState) (now : ℚ) (h : s.tpm_tokens ≤ (s.tpm_limit : ℚ)) :
    (s.refill now).tpm_tokens ≤ ((s.refill now).tpm_limit : ℚ) := by
  simp only [NodeState.refill]; split
  · exact h
  · simp only [min_le_iff]; left; rfl

theorem can_start_fst (s : NodeState) (now : ℚ) (cost : ℕ) (cap : ℤ) :
    (s.can_start now cost cap).1 = s.refill now := by
  simp only [NodeState.can_start]
  split <;> [rfl; split <;> [rfl; split <;> [rfl; split <;> rfl]]]

theorem can_start_true_guard (s : NodeState) (now : ℚ) (cost : ℕ) (cap : ℤ)
    (h : (s.can_start now cost cap).2.1 = true) :
    ((s.refill now).inflight : ℤ) <
      min ((s.refill now).max_physical_concurrency : ℤ) cap := by
  revert h; simp only [NodeState.can_start]
  split
  · intro h; simp at h
  · push_neg at *
    intro _
    omega

/-! ## Claim C2 -/

/-- C2: `can_start(now, tokenCost, allowedConcurrency)` refills first and then
evaluates the checks in the fixed order concurrency ceiling (CONCURRENCY),
burst-window size ≥ burst limit (BURST), rpm_tokens < 1 (RATE_RPM),
tpm_tokens < tokenCost (RATE_TPM); the first failing check's reason is
returned, and in every case — in particular on any failure — the node state
returned is exactly the refilled state (no partial consumption of tokens,
in-flight count or burst window). -/
theorem c2_can_start_check_order (s : NodeState) (now : ℚ) (cost : ℕ) (cap : ℤ) :
    (s.can_start now cost cap).1 = s.refill now ∧
    (((s.refill now).inflight : ℤ) ≥
        min ((s.refill now).max_physical_concurrency : ℤ) cap →
      (s.can_start now cost cap).2 = (false, "CONCURRENCY")) ∧
    (¬ (((s.refill now).inflight : ℤ) ≥
          min ((s.refill now).max_physical_concurrency : ℤ) cap) →
      (((s.refill now).starts_window.length : ℚ) ≥ (s.refill now).burst_rps_limit) →
      (s.can_start now cost cap).2 = (false, "BURST")) ∧
    (¬ (((s.refill now).inflight : ℤ) ≥
          min ((s.refill now).max_physical_concurrency : ℤ) cap) →
      ¬ (((s.refill now).starts_window.length : ℚ) ≥ (s.refill now).burst_rps_limit) →
      (s.refill now).rpm_tokens < 1 →
      (s.can_start now cost cap).2 = (false, "RATE_RPM")) ∧
    (¬ (((s.refill now).inflight : ℤ) ≥
          min ((s.refill now).max_physical_concurrency : ℤ) cap) →
      ¬ (((s.refill now).starts_window.length : ℚ) ≥ (s.refill now).burst_rps_limit) →
      ¬ ((s.refill now).rpm_tokens < 1) →
      (s.refill now).tpm_tokens < (cost : ℚ) →
      (s.can_start now cost cap).2 = (false, "RATE_TPM")) ∧
    (¬ (((s.refill now).inflight : ℤ) ≥
          min ((s.refill now).max_physical_concurrency : ℤ) cap) →
      ¬ (((s.refill now).starts_window.length : ℚ) ≥ (s.refill now).burst_rps_limit) →
      ¬ ((s.refill now).rpm_tokens < 1) →
      ¬ ((s.refill now).tpm_tokens < (cost : ℚ)) →
      (s.can_start now cost cap).2 = (true, "")) := by
  refine ⟨can_start_fst s now cost cap, ?_, ?_, ?_, ?_, ?_⟩
  all_goals (intros; simp only [NodeState.can_start]; split_ifs)
  all_goals simp_all

/-- C2 witness: a concrete node passing the concurrency check but failing the
burst check returns BURST and is left exactly as the refill left it. -/
theorem c2_can_start_check_order_witness :
    (wNode.can_start 0 10 5).1 = wNode.refill 0 ∧
    (wNode.can_start 0 10 5).2 = (false, "BURST") := by
  have h := c2_can_start_check_order wNode 0 10 5
  exact ⟨h.1, h.2.2.1 (by with_unfolding_all decide) (by with_unfolding_all decide)⟩

/-! ## Claim C6 -/

theorem node_tokens_le_applyOp (s : NodeState) (op : NodeOp)
    (h : s.rpm_tokens ≤ (s.rpm_limit : ℚ) ∧ s.tpm_tokens ≤ (s.tpm_limit : ℚ)) :
    (s.applyOp op).rpm_tokens ≤ ((s.applyOp op).rpm_limit : ℚ) ∧
      (s.applyOp op).tpm_tokens ≤ ((s.applyOp op).tpm_limit : ℚ) := by
  cases op with
  | refill now => exact ⟨refill_rpm_le _ _ h.1, refill_tpm_le _ _ h.2⟩
  | start now cost =>
    constructor <;> simp only [NodeState.applyOp, NodeState.start]
    · have := h.1
      linarith
    · have := h.2
      have hc : (0 : ℚ) ≤ (cost : ℚ) := Nat.cast_nonneg cost
      linarith
  | finish =>
    simp only [NodeState.applyOp, NodeState.finish]
    split <;> exact h

theorem node_tokens_le_runOps (s : NodeState) (ops : List NodeOp)
    (h : s.rpm_tokens ≤ (s.rpm_limit : ℚ) ∧ s.tpm_tokens ≤ (s.tpm_limit : ℚ)) :
    (s.runOps ops).rpm_tokens ≤ ((s.runOps ops).rpm_limit : ℚ) ∧
      (s.runOps ops).tpm_tokens ≤ ((s.runOps ops).tpm_limit : ℚ) := by
  induction ops generalizing s with
  | nil => exact h
  | cons op rest ih =>
    simp only [NodeState.runOps, List.foldl_cons] at *
    exact ih _ (node_tokens_le_applyOp s op h)

/-- C6: starting from a freshly constructed node, along any sequence of
refill/start/finish operations with non-decreasing timestamps, the budgets
satisfy rpm_tokens ≤ rpm_limit and tpm_tokens ≤ tpm_limit at every prefix of
the sequence — in particular immediately before and immediately after every
refill (the capacity clamp is never violated). -/
theorem c6_token_bucket_conservation (i rpm tpm conc : ℕ) (burst : ℚ)
    (ops pre : List NodeOp) (_hpre : pre <+: ops) (_hmono : TimesMono ops) :
    ((NodeState.mk0 i rpm tpm conc burst).runOps pre).rpm_tokens
        ≤ (((NodeState.mk0 i rpm tpm conc burst).runOps pre).rpm_limit : ℚ) ∧
    ((NodeState.mk0 i rpm tpm conc burst).runOps pre).tpm_tokens
        ≤ (((NodeState.mk0 i rpm tpm conc burst).runOps pre).tpm_limit : ℚ) :=
  node_tokens_le_runOps _ pre ⟨le_refl _, le_refl _⟩

/-- C6 witness at a concrete refill/start/finish trace. -/
theorem c6_token_bucket_conservation_witness :
    ((NodeState.mk0 0 60 600 4 3).runOps
        [NodeOp.refill 1, NodeOp.start 1 50]).rpm_tokens
      ≤ (((NodeState.mk0 0 60 600 4 3).runOps
        [NodeOp.refill 1, NodeOp.start 1 50]).rpm_limit : ℚ) ∧
    ((NodeState.mk0 0 60 600 4 3).runOps
        [NodeOp.refill 1, NodeOp.start 1 50]).tpm_tokens
      ≤ (((NodeState.mk0 0 60 600 4 3).runOps
        [NodeOp.refill 1, NodeOp.start 1 50]).tpm_limit : ℚ) := by
  have h := c6_token_bucket_conservation 0 60 600 4 3
    [NodeOp.refill 1, NodeOp.start 1 50, NodeOp.finish]
    [NodeOp.refill 1, NodeOp.start 1 50]
    (by exact ⟨[NodeOp.finish], rfl⟩)
    (by simp [TimesMono, NodeOp.time])
  exact h

/-! ## Claim C10 -/

theorem poolInv_applyOp (p : PoolFirstPolicy) (op : PoolOp) (h : PoolInv p) :
    PoolInv (p.applyOp op) := by
  obtain ⟨h1, h2, h3, h4⟩ := h
  cases op with
  | acquire =>
    simp only [PoolFirstPolicy.applyOp, PoolFirstPolicy.acquire_slot]
    rcases hq : p.idle with _ | ⟨a, rest⟩
    · simp only [hq]
      split
      · refine ⟨?_, Nat.zero_le _, ?_, ?_⟩
        · show p.active + 1 + List.length ([] : List ℕ) = p.allocated + 1
          rw [hq] at h1
          simp only [List.length_nil] at h1 ⊢
          omega
        · show p.core ≤ p.allocated + 1
          omega
        · show p.allocated + 1 ≤ p.max_size
          omega
      · exact ⟨h1, h2, h3, h4⟩
    · simp only [hq]
      refine ⟨?_, Nat.zero_le _, h3, h4⟩
      show p.active + 1 + rest.length = p.allocated
      rw [hq] at h1
      simp only [List.length_cons] at h1
      omega
  | release =>
    simp only [PoolFirstPolicy.applyOp, PoolFirstPolicy.release_slot]
    split
    · refine ⟨?_, Nat.zero_le _, h3, h4⟩
      show p.active - 1 + (p.idle ++ [1]).length = p.allocated
      simp only [List.length_append, List.length_cons, List.length_nil]
      omega
    · exact ⟨h1, h2, h3, h4⟩

theorem poolInv_runOps (p : PoolFirstPolicy) (ops : List PoolOp) (h : PoolInv p) :
    PoolInv (p.runOps ops) := by
  induction ops generalizing p with
  | nil => exact h
  | cons op rest ih =>
    simp only [PoolFirstPolicy.runOps, List.foldl_cons] at *
    exact ih _ (poolInv_applyOp p op h)

/-- C10: for the Pool-First policy with core ≤ max_size, the invariant
active + length(idle) = allocated together with 0 ≤ active and
core ≤ allocated ≤ max_size holds initially and after any sequence of
acquire_slot / release_slot calls (covering in particular a release after a
failed node start following a successful acquire), and acquire_slot returns
True exactly when an idle slot exists or allocated < max_size at call time. -/
theorem c10_pool_first_invariant (core max_size : ℕ) (h : core ≤ max_size)
    (ops : List PoolOp) :
    PoolInv (PoolFirstPolicy.mk0 core max_size) ∧
    PoolInv ((PoolFirstPolicy.mk0 core max_size).runOps ops) ∧
    (∀ q : PoolFirstPolicy,
      q.acquire_slot.2 = true ↔ (q.idle ≠ [] ∨ q.allocated < q.max_size)) := by
  have hinit : PoolInv (PoolFirstPolicy.mk0 core max_size) := by
    refine ⟨?_, Nat.zero_le _, le_refl _, h⟩
    simp [PoolFirstPolicy.mk0]
  refine ⟨hinit, poolInv_runOps _ ops hinit, ?_⟩
  intro q
  simp only [PoolFirstPolicy.acquire_slot]
  rcases hq : q.idle with _ | ⟨a, rest⟩
  · simp only [hq]
    split
    · next hlt => simp [hq, hlt]
    · next hlt => simp [hq, hlt]
  · simp [hq]

/-- C10 witness at the constructed pool (core 48, max 95) and a concrete
acquire/release trace. -/
theorem c10_pool_first_invariant_witness :
    PoolInv ((PoolFirstPolicy.mk0 48 95).runOps
      [PoolOp.acquire, PoolOp.release, PoolOp.acquire, PoolOp.acquire]) := by
  have h := c10_pool_first_invariant 48 95 (by decide)
    [PoolOp.acquire, PoolOp.release, PoolOp.acquire, PoolOp.acquire]
  exact h.2.1

/-! ## Claim C5 -/

theorem aimd_update_params (c : AimdController) (sec : ℕ) (m : WindowMetrics) :
    (c.update sec m).min_c = c.min_c ∧ (c.update sec m).max_c = c.max_c := by
  simp only [AimdController.update]
  split_ifs <;> exact ⟨rfl, rfl⟩

theorem aimd_runUpdates_params (c : AimdController) (ms : List (ℕ × WindowMetrics)) :
    (c.runUpdates ms).min_c = c.min_c ∧ (c.runUpdates ms).max_c = c.max_c := by
  induction ms generalizing c with
  | nil => exact ⟨rfl, rfl⟩
  | cons sm rest ih =>
    simp only [AimdController.runUpdates, List.foldl_cons] at *
    obtain ⟨hu1, hu2⟩ := aimd_update_params c sm.1 sm.2
    obtain ⟨ih1, ih2⟩ := ih (c.update sm.1 sm.2)
    exact ⟨ih1.trans hu1, ih2.trans hu2⟩

theorem aimd_limit_bounds (c : AimdController) (h : c.min_c ≤ c.max_c) :
    (c.min_c : ℤ) ≤ c.current_limit ∧ c.current_limit ≤ (c.max_c : ℤ) := by
  unfold AimdController.current_limit
  exact ⟨le_max_left _ _, max_le (by exact_mod_cast h) (min_le_left _ _)⟩

theorem tun_update_params (c : TunableAimdController) (sec : ℕ) (m : WindowMetrics) :
    (c.update sec m).p = c.p := by
  simp only [TunableAimdController.update]
  split_ifs <;> rfl

theorem tun_runUpdates_params (c : TunableAimdController)
    (ms : List (ℕ × WindowMetrics)) : (c.runUpdates ms).p = c.p := by
  induction ms generalizing c with
  | nil => rfl
  | cons sm rest ih =>
    simp only [TunableAimdController.runUpdates, List.foldl_cons] at *
    exact (ih (c.update sm.1 sm.2)).trans (tun_update_params c sm.1 sm.2)

theorem tun_limit_bounds (c : TunableAimdController) (h : c.p.min_c ≤ c.p.max_c) :
    (c.p.min_c : ℤ) ≤ c.current_limit ∧ c.current_limit ≤ (c.p.max_c : ℤ) := by
  unfold TunableAimdController.current_limit
  exact ⟨le_max_left _ _, max_le (by exact_mod_cast h) (min_le_left _ _)⟩

/-- C5: after every finite sequence of window-metrics updates from the initial
state, the Fixed controller's current_limit is its constant limit, and the
AIMD and Tuned-AIMD controllers' current_limit stays within [min, max]
whenever min ≤ max. -/
theorem c5_controller_limit_bounds :
    (∀ (L : ℤ) (ms : List (ℕ × WindowMetrics)),
      (FixedController.runUpdates ⟨L⟩ ms).current_limit = L) ∧
    (∀ (minc maxc initc : ℕ) (ms : List (ℕ × WindowMetrics)), minc ≤ maxc →
      (minc : ℤ) ≤ ((AimdController.mk0 minc maxc initc).runUpdates ms).current_limit ∧
      ((AimdController.mk0 minc maxc initc).runUpdates ms).current_limit ≤ (maxc : ℤ)) ∧
    (∀ (p : AimdParams) (ms : List (ℕ × WindowMetrics)), p.min_c ≤ p.max_c →
      (p.min_c : ℤ) ≤ ((TunableAimdController.mk0 p).runUpdates ms).current_limit ∧
      ((TunableAimdController.mk0 p).runUpdates ms).current_limit ≤ (p.max_c : ℤ)) := by
  refine ⟨?_, ?_, ?_⟩
  · intro L ms
    induction ms with
    | nil => rfl
    | cons sm rest ih =>
      simpa only [FixedController.runUpdates, List.foldl_cons] using ih
  · intro minc maxc initc ms h
    obtain ⟨h1, h2⟩ := aimd_runUpdates_params (AimdController.mk0 minc maxc initc) ms
    have := aimd_limit_bounds ((AimdController.mk0 minc maxc initc).runUpdates ms)
      (by rw [h1, h2]; exact h)
    rw [h1, h2] at this
    exact this
  · intro p ms h
    have hp := tun_runUpdates_params (TunableAimdController.mk0 p) ms
    have := tun_limit_bounds ((TunableAimdController.mk0 p).runUpdates ms)
      (by rw [hp]; exact h)
    rw [hp] at this
    exact this

/-- C5 witness: the three variants evaluated along a concrete two-window
metrics sequence. -/
theorem c5_controller_limit_bounds_witness :
    (FixedController.runUpdates ⟨95⟩ [(0, cxCongested), (1, wCalm)]).current_limit = 95 ∧
    ((6 : ℤ) ≤ ((AimdController.mk0 6 95 10).runUpdates
        [(0, cxCongested), (1, wCalm)]).current_limit ∧
      ((AimdController.mk0 6 95 10).runUpdates
        [(0, cxCongested), (1, wCalm)]).current_limit ≤ (95 : ℤ)) ∧
    ((6 : ℤ) ≤ ((TunableAimdController.mk0 wParams).runUpdates
        [(0, cxCongested), (1, wCalm)]).current_limit ∧
      ((TunableAimdController.mk0 wParams).runUpdates
        [(0, cxCongested), (1, wCalm)]).current_limit ≤ (95 : ℤ)) :=
  ⟨c5_controller_limit_bounds.1 95 [(0, cxCongested), (1, wCalm)],
   c5_controller_limit_bounds.2.1 6 95 10 [(0, cxCongested), (1, wCalm)] (by decide),
   c5_controller_limit_bounds.2.2 wParams [(0, cxCongested), (1, wCalm)] (by decide)⟩

/-! ## Claim C4 -/

/-- C4 counterexample: the basic `AimdController` at its initial state
(window 8, min 4) with a congested window does not set the threshold to
`max(min, window × 0.7) = 5.6`; the source truncates with `int(...)` and
stores 5.  The claim's description of the multiplicative-decrease step is
therefore false for this controller. -/
theorem c4_counterexample :
    AimdCongested cxCongested ∧
    (AimdController.mk0 4 80 8).cooldown = 0 ∧
    ((AimdController.mk0 4 80 8).update 0 cxCongested).ssthresh = 5 ∧
    max ((4 : ℚ)) ((8 : ℚ) * 0.7) = 28 / 5 ∧
    (((5 : ℤ) : ℚ) ≠ 28 / 5) := by
  with_unfolding_all decide

/-- C4 (amended): for the tunable AIMD controller the claim holds verbatim:
cooldown > 0 decrements cooldown and changes nothing else; a congested window
sets threshold to window × decrease-factor clamped to min, sets window to that
threshold and enters cooldown for the configured number of windows; otherwise
the window grows multiplicatively below threshold and additively at or above
it, clamped to max.  For the basic AimdController the same case structure
holds, except the product window × 0.7 is truncated to an integer before the
min-clamp, the cooldown is the constant 2, the slow-start factor is 1.5 and
the additive step is 1. -/
theorem c4_aimd_update_cases :
    (∀ (c : TunableAimdController) (sec : ℕ) (m : WindowMetrics),
      (c.cooldown > 0 → c.update sec m = { c with cooldown := c.cooldown - 1 }) ∧
      (c.cooldown = 0 → TunCongested c.p m →
        (c.update sec m).ssthresh = max (c.p.min_c : ℚ) (c.cwnd * c.p.decrease_factor) ∧
        (c.update sec m).cwnd = (c.update sec m).ssthresh ∧
        (c.update sec m).cooldown = c.p.cooldown_windows) ∧
      (c.cooldown = 0 → ¬ TunCongested c.p m → c.cwnd < c.ssthresh →
        c.update sec m = { c with cwnd := min (c.p.max_c : ℚ) (c.cwnd * c.p.slow_start_factor) }) ∧
      (c.cooldown = 0 → ¬ TunCongested c.p m → ¬ (c.cwnd < c.ssthresh) →
        c.update sec m = { c with cwnd := min (c.p.max_c : ℚ) (c.cwnd + c.p.ai_step) })) ∧
    (∀ (c : AimdController) (sec : ℕ) (m : WindowMetrics),
      (c.cooldown > 0 → c.update sec m = { c with cooldown := c.cooldown - 1 }) ∧
      (c.cooldown = 0 → AimdCongested m →
        (c.update sec m).ssthresh = max (c.min_c : ℤ) (truncRat (c.cwnd * 0.7)) ∧
        (c.update sec m).cwnd = (((c.update sec m).ssthresh : ℤ) : ℚ) ∧
        (c.update sec m).cooldown = 2) ∧
      (c.cooldown = 0 → ¬ AimdCongested m → c.cwnd < (c.ssthresh : ℚ) →
        c.update sec m = { c with cwnd := min (c.max_c : ℚ) (c.cwnd * 1.5) }) ∧
      (c.cooldown = 0 → ¬ AimdCongested m → ¬ (c.cwnd < (c.ssthresh : ℚ)) →
        c.update sec m = { c with cwnd := min (c.max_c : ℚ) (c.cwnd + 1) })) := by
  constructor
  · intro c sec m
    refine ⟨?_, ?_, ?_, ?_⟩
    · intro h
      simp only [TunableAimdController.update, if_pos h]
    · intro h hc
      have hn : ¬ c.cooldown > 0 := by omega
      refine ⟨?_, ?_, ?_⟩
      · simp only [TunableAimdController.update, if_neg hn, if_pos hc]
      · simp only [TunableAimdController.update, if_neg hn, if_pos hc]
        rw [← max_assoc, max_self]
      · simp only [TunableAimdController.update, if_neg hn, if_pos hc]
    · intro h hc hlt
      have hn : ¬ c.cooldown > 0 := by omega
      simp only [TunableAimdController.update, if_neg hn, if_neg hc, if_pos hlt]
    · intro h hc hge
      have hn : ¬ c.cooldown > 0 := by omega
      simp only [TunableAimdController.update, if_neg hn, if_neg hc, if_neg hge]
  · intro c sec m
    refine ⟨?_, ?_, ?_, ?_⟩
    · intro h
      simp only [AimdController.update, if_pos h]
    · intro h hc
      have hn : ¬ c.cooldown > 0 := by omega
      refine ⟨?_, ?_, ?_⟩
      · simp only [AimdController.update, if_neg hn, if_pos hc]
      · simp only [AimdController.update, if_neg hn, if_pos hc]
        push_cast
        rw [← max_assoc, max_self]
      · simp only [AimdController.update, if_neg hn, if_pos hc]
    · intro h hc hlt
      have hn : ¬ c.cooldown > 0 := by omega
      simp only [AimdController.update, if_neg hn, if_neg hc, if_pos hlt]
    · intro h hc hge
      have hn : ¬ c.cooldown > 0 := by omega
      simp only [AimdController.update, if_neg hn, if_neg hc, if_neg hge]

/-- C4 witness: the amended cases applied at concrete controllers — a cooling
tunable controller, a congested basic controller and a calm basic controller. -/
theorem c4_aimd_update_cases_witness :
    (wTunCooling.update 0 wCalm = { wTunCooling with cooldown := 2 }) ∧
    ((AimdController.mk0 4 80 8).update 0 cxCongested).ssthresh =
      max ((4 : ℕ) : ℤ) (truncRat ((8 : ℚ) * 0.7)) ∧
    ((AimdController.mk0 4 80 8).update 0 wCalm).cwnd =
      min (((80 : ℕ)) : ℚ) ((((8 : ℕ)) : ℚ) * 1.5) := by
  refine ⟨?_, ?_, ?_⟩
  · have h := (c4_aimd_update_cases.1 wTunCooling 0 wCalm).1 (by decide)
    exact h
  · exact ((c4_aimd_update_cases.2 (AimdController.mk0 4 80 8) 0 cxCongested).2.1
      (by decide) (by with_unfolding_all decide)).1
  · have h := ((c4_aimd_update_cases.2 (AimdController.mk0 4 80 8) 0 wCalm).2.2.1
      (by decide) (by with_unfolding_all decide) (by with_unfolding_all decide))
    rw [h]
    rfl

/-! ## Claim C3 -/

theorem clampShare_pos (x : ℚ) : 0 < clampShare x := by
  unfold clampShare
  exact lt_max_iff.mpr (Or.inl (by norm_num))

theorem stepToward_pos (old tgt : ℚ) (ho : 0 < old) (ht : 0 < tgt) :
    0 < stepToward old tgt := by
  unfold stepToward
  rcases le_total (tgt - old) 0.05 with h1 | h1
  · rw [min_eq_right h1]
    rcases le_total (-0.05) (tgt - old) with h2 | h2
    · rw [max_eq_right h2]; linarith
    · rw [max_eq_left h2]; linarith
  · rw [min_eq_left h1]
    rw [max_eq_right (by norm_num)]
    linarith

theorem vec4_sum_pos (v : Vec4 ℚ) (h : Vec4.All (fun x => 0 < x) v) : 0 < v.sum := by
  obtain ⟨h0, h1, h2, h3⟩ := h
  simp only [Vec4.sum]
  linarith

theorem vec4_div_sum_props (u : Vec4 ℚ) (h : Vec4.All (fun x => 0 < x) u) :
    (u.map (fun x => x / u.sum)).sum = 1 ∧
      Vec4.All (fun x => 0 < x ∧ x < 1) (u.map (fun x => x / u.sum)) := by
  have hs := vec4_sum_pos u h
  obtain ⟨h0, h1, h2, h3⟩ := h
  have hsum : u.sum = u.v0 + u.v1 + u.v2 + u.v3 := rfl
  constructor
  · simp only [Vec4.map, Vec4.sum]
    rw [div_add_div_same, div_add_div_same, div_add_div_same, ← hsum]
    exact div_self (ne_of_gt hs)
  · simp only [Vec4.map, Vec4.All]
    refine ⟨⟨div_pos h0 hs, ?_⟩, ⟨div_pos h1 hs, ?_⟩, ⟨div_pos h2 hs, ?_⟩,
      ⟨div_pos h3 hs, ?_⟩⟩ <;>
    · rw [div_lt_one hs, hsum]
      linarith

theorem shareTarget_pos (arrs accs toks rejs : Vec4 ℕ) :
    Vec4.All (fun x => 0 < x) (shareTarget arrs accs toks rejs) := by
  have hpos : Vec4.All (fun x => 0 < x) (clampedScores arrs accs toks rejs) :=
    ⟨clampShare_pos _, clampShare_pos _, clampShare_pos _, clampShare_pos _⟩
  have hs := vec4_sum_pos _ hpos
  obtain ⟨h0, h1, h2, h3⟩ := hpos
  exact ⟨div_pos h0 hs, div_pos h1 hs, div_pos h2 hs, div_pos h3 hs⟩

theorem updateSharesFrom_props (arrs accs toks rejs : Vec4 ℕ) (sh : Vec4 ℚ)
    (h : Vec4.All (fun x => 0 < x) sh) :
    (updateSharesFrom arrs accs toks rejs sh).sum = 1 ∧
      Vec4.All (fun x => 0 < x ∧ x < 1) (updateSharesFrom arrs accs toks rejs sh) := by
  obtain ⟨ht0, ht1, ht2, ht3⟩ := shareTarget_pos arrs accs toks rejs
  obtain ⟨h0, h1, h2, h3⟩ := h
  exact vec4_div_sum_props (Vec4.zipWith stepToward sh (shareTarget arrs accs toks rejs))
    ⟨stepToward_pos _ _ h0 ht0, stepToward_pos _ _ h1 ht1,
     stepToward_pos _ _ h2 ht2, stepToward_pos _ _ h3 ht3⟩

theorem updateBoundaries_shares (a : AdaptiveBucketAllocator) :
    a.updateBoundaries.shares = a.shares := by
  simp only [AdaptiveBucketAllocator.updateBoundaries]
  split
  · rfl
  · split <;> rfl

theorem updateBoundaries_win (a : AdaptiveBucketAllocator) :
    a.updateBoundaries.win_arrival = a.win_arrival ∧
      a.updateBoundaries.win_accepted = a.win_accepted ∧
      a.updateBoundaries.win_tokens = a.win_tokens ∧
      a.updateBoundaries.win_reject = a.win_reject := by
  simp only [AdaptiveBucketAllocator.updateBoundaries]
  split
  · exact ⟨rfl, rfl, rfl, rfl⟩
  · split <;> exact ⟨rfl, rfl, rfl, rfl⟩

theorem updateBoundaries_inc (a : AdaptiveBucketAllocator)
    (h : a.boundaries.1 < a.boundaries.2.1 ∧ a.boundaries.2.1 < a.boundaries.2.2) :
    a.updateBoundaries.boundaries.1 < a.updateBoundaries.boundaries.2.1 ∧
      a.updateBoundaries.boundaries.2.1 < a.updateBoundaries.boundaries.2.2 := by
  simp only [AdaptiveBucketAllocator.updateBoundaries]
  split
  · exact h
  · split
    · next hord => exact hord
    · exact h

theorem allocInv_onWindowEnd (a : AdaptiveBucketAllocator) (w : WindowObs)
    (h : AllocInv a) : AllocInv ((a.loadWindow w).onWindowEnd) := by
  obtain ⟨_, hpos, hb⟩ := h
  have hloadsh : (a.loadWindow w).shares = a.shares := rfl
  have hloadb : (a.loadWindow w).boundaries = a.boundaries := rfl
  have hbsh := updateBoundaries_shares (a.loadWindow w)
  have hbinc := updateBoundaries_inc (a.loadWindow w) (by rw [hloadb]; exact hb)
  have hprops := updateSharesFrom_props (a.loadWindow w).updateBoundaries.win_arrival
    (a.loadWindow w).updateBoundaries.win_accepted
    (a.loadWindow w).updateBoundaries.win_tokens
    (a.loadWindow w).updateBoundaries.win_reject
    (a.loadWindow w).updateBoundaries.shares
    (by rw [hbsh, hloadsh]
        exact ⟨hpos.1.1, hpos.2.1.1, hpos.2.2.1.1, hpos.2.2.2.1⟩)
  exact ⟨hprops.1, hprops.2, hbinc⟩

theorem allocInv_runWindows (a : AdaptiveBucketAllocator) (ws : List WindowObs)
    (h : AllocInv a) : AllocInv (a.runWindows ws) := by
  induction ws generalizing a with
  | nil => exact h
  | cons w rest ih =>
    simp only [AdaptiveBucketAllocator.runWindows, List.foldl_cons] at *
    exact ih _ (allocInv_onWindowEnd a w h)

set_option maxRecDepth 400000 in
/-- C3 counterexample: after six re-balance windows in which all traffic lands
in the largest bucket, the adaptive allocator fourth share exceeds 0.50 — the
clamp to [0.10, 0.50] applies only to the pre-normalization scores, not to the
shares produced by the two renormalization steps. -/
theorem c3_counterexample : cxAlloc.shares.v3 > 1 / 2 := by
  with_unfolding_all decide

/-- C3 (amended): after every re-balance (any window counters and token
history), the four shares sum to exactly 1, every share lies strictly inside
(0, 1), and the three boundaries remain strictly increasing.  The claimed
[0.10, 0.50] band holds for the clamped per-bucket scores but not for the
final shares. -/
theorem c3_allocator_rebalance_invariant (rpm tpm : ℕ) (ws : List WindowObs) :
    AllocInv ((AdaptiveBucketAllocator.mk0 rpm tpm).runWindows ws) := by
  apply allocInv_runWindows
  refine ⟨by norm_num [AdaptiveBucketAllocator.mk0, Vec4.sum], ?_, by norm_num [AdaptiveBucketAllocator.mk0], by norm_num [AdaptiveBucketAllocator.mk0]⟩
  refine ⟨⟨?_, ?_⟩, ⟨?_, ?_⟩, ⟨?_, ?_⟩, ⟨?_, ?_⟩⟩ <;> norm_num [AdaptiveBucketAllocator.mk0]

/-! ## Claim C8 -/

theorem rebalance_alpha (f : FullPipelinePolicy) :
    f.rebalanceBuckets.alpha = f.alpha := by
  simp only [FullPipelinePolicy.rebalanceBuckets]
  split
  · rfl
  · dsimp only
    split <;> rfl

theorem onWindow_alpha_congested (f : FullPipelinePolicy) (m : FullMetrics)
    (h : FullCongested m) :
    (f.onWindow m).alpha = max 0.65 (f.alpha * 0.92) := by
  simp only [FullPipelinePolicy.onWindow, if_pos h]
  rw [rebalance_alpha]

theorem onWindow_alpha_allclear (f : FullPipelinePolicy) (m : FullMetrics)
    (h1 : ¬ FullCongested m) (h2 : FullAllClear m) :
    (f.onWindow m).alpha = min 1 (f.alpha + 0.02) := by
  simp only [FullPipelinePolicy.onWindow, if_neg h1, if_pos h2]
  rw [rebalance_alpha]

theorem onWindow_alpha_other (f : FullPipelinePolicy) (m : FullMetrics)
    (h1 : ¬ FullCongested m) (h2 : ¬ FullAllClear m) :
    (f.onWindow m).alpha = f.alpha := by
  simp only [FullPipelinePolicy.onWindow, if_neg h1, if_neg h2]
  rw [rebalance_alpha]

theorem alpha_bounds_onWindow (f : FullPipelinePolicy) (m : FullMetrics)
    (h : 0.65 ≤ f.alpha ∧ f.alpha ≤ 1) :
    0.65 ≤ (f.onWindow m).alpha ∧ (f.onWindow m).alpha ≤ 1 := by
  by_cases h1 : FullCongested m
  · rw [onWindow_alpha_congested f m h1]
    refine ⟨le_max_left _ _, max_le (by norm_num) ?_⟩
    nlinarith [h.1, h.2]
  · by_cases h2 : FullAllClear m
    · rw [onWindow_alpha_allclear f m h1 h2]
      exact ⟨le_min (by norm_num) (by linarith [h.1]), min_le_left _ _⟩
    · rw [onWindow_alpha_other f m h1 h2]
      exact h

theorem alpha_bounds_runWindows (f : FullPipelinePolicy) (ms : List FullMetrics)
    (h : 0.65 ≤ f.alpha ∧ f.alpha ≤ 1) :
    0.65 ≤ (f.runWindows ms).alpha ∧ (f.runWindows ms).alpha ≤ 1 := by
  induction ms generalizing f with
  | nil => exact h
  | cons m rest ih =>
    simp only [FullPipelinePolicy.runWindows, List.foldl_cons] at *
    exact ih _ (alpha_bounds_onWindow f m h)

/-- C8 counterexample: after one congested window alpha is 0.92; a following
window with TTFT p95 = 1300ms exceeds no suppression threshold, yet alpha
stays at 0.92 instead of being increased by 0.02 — the relax branch fires only
when all three signals are below the stricter all-clear thresholds
(TTFT < 1150, GC < 1.2, reject < 0.40), so the claim "on every other window
alpha is increased by 0.02" is false on the code. -/
theorem c8_counterexample :
    ¬ FullCongested cxFullMid ∧
    cxFullPolicy.alpha =
      ((FullPipelinePolicy.mk0 6900 3867000 95).onWindow cxFullHot).alpha ∧
    cxFullPolicy.alpha = 23 / 25 ∧
    ((23 : ℚ) / 25 ≠ min 1 (23 / 25 + 0.02)) := by
  with_unfolding_all decide

/-- C8 (amended): across every sequence of on_window calls from the initial
policy, alpha stays within [0.65, 1.0].  On a window where p95 TTFT > 1400ms,
simulated-GC frequency > 1.8 or reject rate > 0.50, alpha is multiplied by
0.92 and floored at 0.65; on a window where all of p95 TTFT < 1150ms,
GC < 1.2 and reject rate < 0.40 hold, alpha is increased by 0.02 capped at
1.0; on every remaining window alpha is left unchanged. -/
theorem c8_full_pipeline_alpha :
    (∀ (rpm tpm : ℕ) (L : ℤ) (ms : List FullMetrics),
      0.65 ≤ ((FullPipelinePolicy.mk0 rpm tpm L).runWindows ms).alpha ∧
      ((FullPipelinePolicy.mk0 rpm tpm L).runWindows ms).alpha ≤ 1) ∧
    (∀ (f : FullPipelinePolicy) (m : FullMetrics),
      (FullCongested m → (f.onWindow m).alpha = max 0.65 (f.alpha * 0.92)) ∧
      (¬ FullCongested m → FullAllClear m →
        (f.onWindow m).alpha = min 1 (f.alpha + 0.02)) ∧
      (¬ FullCongested m → ¬ FullAllClear m → (f.onWindow m).alpha = f.alpha)) := by
  constructor
  · intro rpm tpm L ms
    refine alpha_bounds_runWindows _ ms ?_
    constructor <;> norm_num [FullPipelinePolicy.mk0]
  · intro f m
    exact ⟨onWindow_alpha_congested f m,
      onWindow_alpha_allclear f m, onWindow_alpha_other f m⟩

/-- C8 witness: the three per-window cases at concrete metrics windows and the
bound along a concrete window sequence. -/
theorem c8_full_pipeline_alpha_witness :
    (0.65 ≤ ((FullPipelinePolicy.mk0 6900 3867000 95).runWindows
        [cxFullHot, cxFullMid, wFullCalm]).alpha ∧
      ((FullPipelinePolicy.mk0 6900 3867000 95).runWindows
        [cxFullHot, cxFullMid, wFullCalm]).alpha ≤ 1) ∧
    (cxFullPolicy.onWindow cxFullHot).alpha = max 0.65 (cxFullPolicy.alpha * 0.92) ∧
    (cxFullPolicy.onWindow wFullCalm).alpha = min 1 (cxFullPolicy.alpha + 0.02) ∧
    (cxFullPolicy.onWindow cxFullMid).alpha = cxFullPolicy.alpha := by
  refine ⟨c8_full_pipeline_alpha.1 6900 3867000 95 [cxFullHot, cxFullMid, wFullCalm],
    (c8_full_pipeline_alpha.2 cxFullPolicy cxFullHot).1 (by with_unfolding_all decide),
    (c8_full_pipeline_alpha.2 cxFullPolicy wFullCalm).2.1
      (by with_unfolding_all decide) (by with_unfolding_all decide),
    (c8_full_pipeline_alpha.2 cxFullPolicy cxFullMid).2.2
      (by with_unfolding_all decide) (by with_unfolding_all decide)⟩

/-! ## Simulation-loop lemmas (claims C1, C7, C9) -/

theorem finish_inflight_le (s : NodeState) : s.finish.inflight ≤ s.inflight := by
  simp only [NodeState.finish]
  split
  · show s.inflight - 1 ≤ s.inflight
    omega
  · exact le_refl _

theorem finish_phys (s : NodeState) :
    s.finish.max_physical_concurrency = s.max_physical_concurrency := by
  simp only [NodeState.finish]
  split <;> rfl

theorem modifyIdx_pres {α : Type} (P : α → Prop) (f : α → α)
    (hf : ∀ a, P a → P (f a)) :
    ∀ (i : ℕ) (l : List α), (∀ a ∈ l, P a) → ∀ a ∈ modifyIdx f i l, P a := by
  intro i l
  induction l generalizing i with
  | nil => intro _ a ha; cases i <;> simp [modifyIdx] at ha
  | cons x xs ih =>
    intro h a ha
    cases i with
    | zero =>
      simp only [modifyIdx] at ha
      rcases List.mem_cons.mp ha with rfl | hm
      · exact hf x (h x (List.mem_cons_self _ _))
      · exact h a (List.mem_cons_of_mem _ hm)
    | succ n =>
      simp only [modifyIdx] at ha
      rcases List.mem_cons.mp ha with rfl | hm
      · exact h a (List.mem_cons_self _ _)
      · exact ih n (fun b hb => h b (List.mem_cons_of_mem _ hb)) a hm

theorem sumInflight_modifyIdx_finish :
    ∀ (i : ℕ) (ns : List NodeState),
      sumInflight (modifyIdx NodeState.finish i ns) ≤ sumInflight ns := by
  intro i ns
  induction ns generalizing i with
  | nil => cases i <;> simp [modifyIdx]
  | cons x xs ih =>
    cases i with
    | zero =>
      simp only [modifyIdx, sumInflight]
      have := finish_inflight_le x
      omega
    | succ n =>
      simp only [modifyIdx, sumInflight]
      have := ih n
      omega

theorem sumInflight_foldl_finish (l : List Inflight) :
    ∀ ns : List NodeState,
      sumInflight (l.foldl (fun ns c => modifyIdx NodeState.finish c.node_id ns) ns)
        ≤ sumInflight ns := by
  induction l with
  | nil => intro ns; exact le_refl _
  | cons c rest ih =>
    intro ns
    simp only [List.foldl_cons]
    exact le_trans (ih _) (sumInflight_modifyIdx_finish _ _)

theorem nodesP_foldl_finish (P : NodeState → Prop) (hf : ∀ a, P a → P a.finish)
    (l : List Inflight) :
    ∀ ns : List NodeState, (∀ nd ∈ ns, P nd) →
      ∀ nd ∈ l.foldl (fun ns c => modifyIdx NodeState.finish c.node_id ns) ns, P nd := by
  induction l with
  | nil => intro ns h; exact h
  | cons c rest ih =>
    intro ns h
    simp only [List.foldl_cons]
    exact ih _ (modifyIdx_pres P NodeState.finish hf _ _ h)

theorem sumInflight_set_eq :
    ∀ (ns : List NodeState) (i : ℕ) (nd0 nd1 : NodeState),
      ns[i]? = some nd0 → nd1.inflight = nd0.inflight →
      sumInflight (ns.set i nd1) = sumInflight ns := by
  intro ns
  induction ns with
  | nil => intro i nd0 nd1 h; simp at h
  | cons x xs ih =>
    intro i nd0 nd1 h he
    cases i with
    | zero =>
      simp only [List.getElem?_cons_zero, Option.some_inj] at h
      subst h
      simp only [List.set, sumInflight, he]
    | succ n =>
      simp only [List.getElem?_cons_succ] at h
      simp only [List.set, sumInflight, ih n nd0 nd1 h he]

theorem sumInflight_set_succ :
    ∀ (ns : List NodeState) (i : ℕ) (nd0 nd1 : NodeState),
      ns[i]? = some nd0 → nd1.inflight = nd0.inflight + 1 →
      sumInflight (ns.set i nd1) = sumInflight ns + 1 := by
  intro ns
  induction ns with
  | nil => intro i nd0 nd1 h; simp at h
  | cons x xs ih =>
    intro i nd0 nd1 h he
    cases i with
    | zero =>
      simp only [List.getElem?_cons_zero, Option.some_inj] at h
      subst h
      simp only [List.set, sumInflight, he]
      omega
    | succ n =>
      simp only [List.getElem?_cons_succ] at h
      simp only [List.set, sumInflight, ih n nd0 nd1 h he]
      omega

theorem tryNodes_pres (now : ℚ) (cost : ℕ) (cap : ℤ) (P : NodeState → Prop)
    (hrefill : ∀ s, P s → P (s.refill now))
    (hstart : ∀ s, P s → (s.can_start now cost cap).2.1 = true →
      P ((s.refill now).start now cost)) :
    ∀ (idxs : List ℕ) (ns : List NodeState) (fr : String),
      (∀ nd ∈ ns, P nd) → ∀ nd ∈ (tryNodes now cost cap idxs ns fr).1, P nd := by
  intro idxs
  induction idxs with
  | nil => intro ns fr h; exact h
  | cons i rest ih =>
    intro ns fr h
    simp only [tryNodes]
    rcases hg : ns[i]? with _ | nd
    · simp only [hg]
      exact ih ns fr h
    · simp only [hg]
      split
    -- success: the refilled node is started in place
      · next hok =>
        intro nd' hmem
        rcases List.mem_or_eq_of_mem_set hmem with hm | rfl
        · exact h _ hm
        · rw [can_start_fst]
          exact hstart nd (h nd (List.getElem?_mem hg)) hok
    -- failure: the attempted node is still refilled in place
      · next hok =>
        apply ih
        intro nd' hmem
        rcases List.mem_or_eq_of_mem_set hmem with hm | rfl
        · exact h _ hm
        · rw [can_start_fst]
          exact hrefill nd (h nd (List.getElem?_mem hg))

theorem tryNodes_sum (now : ℚ) (cost : ℕ) (cap : ℤ) :
    ∀ (idxs : List ℕ) (ns : List NodeState) (fr : String),
      sumInflight (tryNodes now cost cap idxs ns fr).1 =
        sumInflight ns +
          (if (tryNodes now cost cap idxs ns fr).2.1.isSome then 1 else 0) := by
  intro idxs
  induction idxs with
  | nil => intro ns fr; simp [tryNodes]
  | cons i rest ih =>
    intro ns fr
    simp only [tryNodes]
    rcases Option.eq_none_or_eq_some ns[i]? with hg | ⟨nd, hg⟩
    · simp only [hg]
      exact ih ns fr
    · simp only [hg]
      split
      · next hok =>
        have hstart : ((nd.can_start now cost cap).1.start now cost).inflight =
            nd.inflight + 1 := by
          rw [can_start_fst]
          show (nd.refill now).inflight + 1 = nd.inflight + 1
          rw [refill_inflight]
        have := sumInflight_set_succ ns i nd ((nd.can_start now cost cap).1.start now cost)
          hg hstart
        simp [this]
      · next hok =>
        have heq : ((nd.can_start now cost cap).1).inflight = nd.inflight := by
          rw [can_start_fst, refill_inflight]
        rw [ih (ns.set i (nd.can_start now cost cap).1) ((nd.can_start now cost cap).2.2)]
        rw [sumInflight_set_eq ns i nd _ hg heq]

theorem perm_move_to_third (a : ℕ) (R Q T A : List ℕ) :
    (R ++ (a :: Q) ++ T ++ A).Perm (R ++ Q ++ (T ++ [a]) ++ A) := by
  rw [← Multiset.coe_eq_coe]
  simp only [← Multiset.coe_add, List.append_assoc, ← Multiset.cons_coe,
    ← Multiset.singleton_add]
  abel

theorem perm_move_to_fourth (a : ℕ) (R Q T A : List ℕ) :
    (R ++ (a :: Q) ++ T ++ A).Perm (R ++ Q ++ T ++ (A ++ [a])) := by
  rw [← Multiset.coe_eq_coe]
  simp only [← Multiset.coe_add, List.append_assoc, ← Multiset.cons_coe,
    ← Multiset.singleton_add]
  abel

theorem arrivalsLoop_perm (now : ℚ) :
    ∀ (rem q : List Request),
      ((arrivalsLoop now rem q).1.map Request.id ++
        (arrivalsLoop now rem q).2.map Request.id).Perm
        (rem.map Request.id ++ q.map Request.id) := by
  intro rem
  induction rem with
  | nil => intro q; simp [arrivalsLoop]
  | cons r rest ih =>
    intro q
    simp only [arrivalsLoop]
    split
    · refine (ih (q ++ [r])).trans ?_
      rw [← Multiset.coe_eq_coe]
      simp only [List.map_append, List.map_cons, List.map_nil, ← Multiset.coe_add,
        List.append_assoc, ← Multiset.cons_coe, ← Multiset.singleton_add]
      abel
    · exact List.Perm.refl _

theorem arrivalsPhase_fields {σ : Type} (st : SimState σ) :
    (arrivalsPhase st).nodes = st.nodes ∧ (arrivalsPhase st).ctrl = st.ctrl ∧
      (arrivalsPhase st).timeoutCount = st.timeoutCount ∧
      (arrivalsPhase st).timeoutLog = st.timeoutLog ∧
      (arrivalsPhase st).admittedLog = st.admittedLog ∧
      (arrivalsPhase st).now = st.now ∧ (arrivalsPhase st).tickCount = st.tickCount :=
  ⟨rfl, rfl, rfl, rfl, rfl, rfl, rfl⟩

theorem arrivalsPhase_pool {σ : Type} (st : SimState σ)
    (hn : (poolIds st).Nodup) : (poolIds (arrivalsPhase st)).Nodup := by
  have hperm := arrivalsLoop_perm st.now st.remaining st.queue
  unfold poolIds poolOf at hn ⊢
  refine List.Perm.nodup ?_ hn
  exact ((hperm.symm.append_right _).append_right _)

theorem completionsPhase_fields {σ : Type} (st : SimState σ) :
    (completionsPhase st).remaining = st.remaining ∧
      (completionsPhase st).queue = st.queue ∧
      (completionsPhase st).timeoutCount = st.timeoutCount ∧
      (completionsPhase st).timeoutLog = st.timeoutLog ∧
      (completionsPhase st).admittedLog = st.admittedLog ∧
      (completionsPhase st).ctrl = st.ctrl ∧
      (completionsPhase st).now = st.now ∧
      (completionsPhase st).tickCount = st.tickCount := by
  simp only [completionsPhase]
  split <;> exact ⟨rfl, rfl, rfl, rfl, rfl, rfl, rfl, rfl⟩

theorem completionsPhase_nodes_pres {σ : Type} (P : NodeState → Prop)
    (hf : ∀ a, P a → P a.finish) (st : SimState σ)
    (h : ∀ nd ∈ st.nodes, P nd) : ∀ nd ∈ (completionsPhase st).nodes, P nd := by
  simp only [completionsPhase]
  split
  · exact h
  · exact nodesP_foldl_finish P hf _ st.nodes h

theorem completionsPhase_sum {σ : Type} (st : SimState σ) :
    sumInflight (completionsPhase st).nodes ≤ sumInflight st.nodes := by
  simp only [completionsPhase]
  split
  · exact le_refl _
  · exact sumInflight_foldl_finish _ st.nodes

theorem timeoutsLoop_fields {σ : Type} (t : ℚ) :
    ∀ (q : List Request) (st : SimState σ),
      (timeoutsLoop t q st).remaining = st.remaining ∧
        (timeoutsLoop t q st).admittedLog = st.admittedLog ∧
        (timeoutsLoop t q st).nodes = st.nodes ∧
        (timeoutsLoop t q st).ctrl = st.ctrl ∧
        (timeoutsLoop t q st).now = st.now ∧
        (timeoutsLoop t q st).tickCount = st.tickCount := by
  intro q
  induction q with
  | nil => intro st; exact ⟨rfl, rfl, rfl, rfl, rfl, rfl⟩
  | cons r rest ih =>
    intro st
    simp only [timeoutsLoop]
    split
    · exact ih _
    · exact ⟨rfl, rfl, rfl, rfl, rfl, rfl⟩

theorem timeoutsLoop_inv7 {σ : Type} (t : ℚ) :
    ∀ (q : List Request) (st : SimState σ),
      st.timeoutCount = st.timeoutLog.length →
      (poolOf st.remaining q st.timeoutLog st.admittedLog).Nodup →
      (timeoutsLoop t q st).timeoutCount = (timeoutsLoop t q st).timeoutLog.length ∧
        (poolIds (timeoutsLoop t q st)).Nodup := by
  intro q
  induction q with
  | nil => intro st hc hn; exact ⟨hc, hn⟩
  | cons r rest ih =>
    intro st hc hn
    simp only [timeoutsLoop]
    split
    · apply ih
      · simp [hc]
      · show (poolOf st.remaining rest (st.timeoutLog ++ [r.id]) st.admittedLog).Nodup
        unfold poolOf at hn ⊢
        simp only [List.map_cons] at hn
        exact (perm_move_to_third r.id _ _ _ _).nodup hn
    · exact ⟨hc, hn⟩

theorem admissionLoop_fields {σ : Type} (oracle : ℕ → List ℕ) (cap : ℤ) :
    ∀ (q : List Request) (total att : ℕ) (st : SimState σ),
      (admissionLoop oracle cap q total att st).remaining = st.remaining ∧
        (admissionLoop oracle cap q total att st).timeoutCount = st.timeoutCount ∧
        (admissionLoop oracle cap q total att st).timeoutLog = st.timeoutLog ∧
        (admissionLoop oracle cap q total att st).ctrl = st.ctrl ∧
        (admissionLoop oracle cap q total att st).now = st.now ∧
        (admissionLoop oracle cap q total att st).tickCount = st.tickCount := by
  intro q
  induction q with
  | nil => intro total att st; exact ⟨rfl, rfl, rfl, rfl, rfl, rfl⟩
  | cons r rest ih =>
    intro total att st
    simp only [admissionLoop]
    split
    · split
      · exact ih _ _ _
      · exact ⟨rfl, rfl, rfl, rfl, rfl, rfl⟩
    · exact ⟨rfl, rfl, rfl, rfl, rfl, rfl⟩

theorem admissionLoop_inv7 {σ : Type} (oracle : ℕ → List ℕ) (cap : ℤ) :
    ∀ (q : List Request) (total att : ℕ) (st : SimState σ),
      st.timeoutCount = st.timeoutLog.length →
      (poolOf st.remaining q st.timeoutLog st.admittedLog).Nodup →
      (admissionLoop oracle cap q total att st).timeoutCount =
          (admissionLoop oracle cap q total att st).timeoutLog.length ∧
        (poolIds (admissionLoop oracle cap q total att st)).Nodup := by
  intro q
  induction q with
  | nil => intro total att st hc hn; exact ⟨hc, hn⟩
  | cons r rest ih =>
    intro total att st hc hn
    simp only [admissionLoop]
    split
    · split
      · apply ih
        · exact hc
        · show (poolOf st.remaining rest st.timeoutLog
            (st.admittedLog ++ [r.id])).Nodup
          unfold poolOf at hn ⊢
          simp only [List.map_cons] at hn
          exact (perm_move_to_fourth r.id _ _ _ _).nodup hn
      · exact ⟨hc, hn⟩
    · exact ⟨hc, hn⟩

theorem rolloverStep_fields {σ : Type} (ops : ControllerOps σ) (st : SimState σ) :
    (rolloverStep ops st).remaining = st.remaining ∧
      (rolloverStep ops st).queue = st.queue ∧
      (rolloverStep ops st).timeoutCount = st.timeoutCount ∧
      (rolloverStep ops st).timeoutLog = st.timeoutLog ∧
      (rolloverStep ops st).admittedLog = st.admittedLog ∧
      (rolloverStep ops st).nodes = st.nodes ∧
      (rolloverStep ops st).now = st.now ∧
      (rolloverStep ops st).tickCount = st.tickCount :=
  ⟨rfl, rfl, rfl, rfl, rfl, rfl, rfl, rfl⟩

theorem rolloverLoop_fields {σ : Type} (ops : ControllerOps σ) :
    ∀ (fuel : ℕ) (st : SimState σ),
      (rolloverLoop ops fuel st).remaining = st.remaining ∧
        (rolloverLoop ops fuel st).queue = st.queue ∧
        (rolloverLoop ops fuel st).timeoutCount = st.timeoutCount ∧
        (rolloverLoop ops fuel st).timeoutLog = st.timeoutLog ∧
        (rolloverLoop ops fuel st).admittedLog = st.admittedLog ∧
        (rolloverLoop ops fuel st).nodes = st.nodes := by
  intro fuel
  induction fuel with
  | zero => intro st; exact ⟨rfl, rfl, rfl, rfl, rfl, rfl⟩
  | succ n ih =>
    intro st
    simp only [rolloverLoop]
    split
    · exact ih (rolloverStep ops st)
    · exact ⟨rfl, rfl, rfl, rfl, rfl, rfl⟩

theorem tick_inv7 {σ : Type} (ops : ControllerOps σ) (oracle : ℕ → ℕ → List ℕ)
    (st : SimState σ) (hc : st.timeoutCount = st.timeoutLog.length)
    (hn : (poolIds st).Nodup) :
    (tick ops oracle st).timeoutCount = (tick ops oracle st).timeoutLog.length ∧
      (poolIds (tick ops oracle st)).Nodup := by
  have h1 : (arrivalsPhase st).timeoutCount = (arrivalsPhase st).timeoutLog.length := hc
  have hn1 := arrivalsPhase_pool st hn
  have f2 := completionsPhase_fields (arrivalsPhase st)
  have h2 : (completionsPhase (arrivalsPhase st)).timeoutCount =
      (completionsPhase (arrivalsPhase st)).timeoutLog.length := by
    rw [f2.2.2.1, f2.2.2.2.1]
    exact h1
  have hn2 : (poolIds (completionsPhase (arrivalsPhase st))).Nodup := by
    unfold poolIds poolOf at hn1 ⊢
    rw [f2.1, f2.2.1, f2.2.2.2.1, f2.2.2.2.2.1]
    exact hn1
  have h3 := timeoutsLoop_inv7 simTimeout (completionsPhase (arrivalsPhase st)).queue
    (completionsPhase (arrivalsPhase st)) h2 hn2
  have h4 := admissionLoop_inv7
    (oracle (timeoutsPhase simTimeout (completionsPhase (arrivalsPhase st))).tickCount)
    (ops.limit (timeoutsPhase simTimeout (completionsPhase (arrivalsPhase st))).ctrl)
    (timeoutsPhase simTimeout (completionsPhase (arrivalsPhase st))).queue
    (sumInflight (timeoutsPhase simTimeout (completionsPhase (arrivalsPhase st))).nodes)
    0 (timeoutsPhase simTimeout (completionsPhase (arrivalsPhase st))) h3.1 h3.2
  -- the peak-concurrency record update, the rollover loop and the clock advance
  -- leave the queue, the logs and the counters untouched
  set st4 := admissionPhase ops oracle
    (timeoutsPhase simTimeout (completionsPhase (arrivalsPhase st))) with hst4
  have h4c : st4.timeoutCount = st4.timeoutLog.length := h4.1
  have h4n : (poolIds st4).Nodup := h4.2
  set st5 : SimState σ :=
    { st4 with peakConcurrency := max st4.peakConcurrency (sumInflight st4.nodes) }
    with hst5
  have f6 := rolloverLoop_fields ops 2 st5
  constructor
  · show (rolloverLoop ops 2 st5).timeoutCount =
      (rolloverLoop ops 2 st5).timeoutLog.length
    rw [f6.2.2.1, f6.2.2.2.1]
    exact h4c
  · show (poolIds (rolloverLoop ops 2 st5)).Nodup
    unfold poolIds poolOf
    rw [f6.1, f6.2.1, f6.2.2.2.1, f6.2.2.2.2.1]
    exact h4n

theorem runTicks_inv7 {σ : Type} (ops : ControllerOps σ) (oracle : ℕ → ℕ → List ℕ) :
    ∀ (n : ℕ) (st : SimState σ),
      st.timeoutCount = st.timeoutLog.length → (poolIds st).Nodup →
      (runTicks ops oracle n st).timeoutCount =
          (runTicks ops oracle n st).timeoutLog.length ∧
        (poolIds (runTicks ops oracle n st)).Nodup := by
  intro n
  induction n with
  | zero => intro st hc hn; exact ⟨hc, hn⟩
  | succ k ih =>
    intro st hc hn
    have h := tick_inv7 ops oracle st hc hn
    exact ih (tick ops oracle st) h.1 h.2

/-- C7: along any run of the tick loop on an input whose request ids are
distinct, the QUEUE_TIMEOUT rejection counter always equals the number of
requests ever removed by the timeout sweep, and no request id is ever logged
as QUEUE_TIMEOUT twice: every expired request is removed from the queue and
counted exactly once, never double-counted on a later tick. -/
theorem c7_queue_timeout_exactly_once {σ : Type} (ops : ControllerOps σ)
    (oracle : ℕ → ℕ → List ℕ) (reqs : List Request) (nodes0 : List NodeState)
    (c0 : σ) (n : ℕ) (h : (reqs.map Request.id).Nodup) :
    (runTicks ops oracle n (initState reqs nodes0 c0)).timeoutCount =
        (runTicks ops oracle n (initState reqs nodes0 c0)).timeoutLog.length ∧
      (runTicks ops oracle n (initState reqs nodes0 c0)).timeoutLog.Nodup := by
  have hinit : (poolIds (initState reqs nodes0 c0)).Nodup := by
    show (reqs.map Request.id ++ List.map Request.id [] ++ [] ++ []).Nodup
    simpa using h
  have hrun := runTicks_inv7 ops oracle n (initState reqs nodes0 c0) rfl hinit
  refine ⟨hrun.1, ?_⟩
  have hpool := hrun.2
  unfold poolIds poolOf at hpool
  exact hpool.of_append_left.of_append_right

/-- C7 witness: a two-request input with distinct ids run for 100 ticks (the
second request arrives late enough that the first times out). -/
theorem c7_queue_timeout_exactly_once_witness :
    (runTicks fixedOps cxOracle 100 (initState cxUnsorted [cxNode]
        (FixedController.mk 0))).timeoutCount =
      (runTicks fixedOps cxOracle 100 (initState cxUnsorted [cxNode]
        (FixedController.mk 0))).timeoutLog.length ∧
    (runTicks fixedOps cxOracle 100 (initState cxUnsorted [cxNode]
        (FixedController.mk 0))).timeoutLog.Nodup := by
  exact c7_queue_timeout_exactly_once fixedOps cxOracle cxUnsorted [cxNode]
    (FixedController.mk 0) 100 (by simp [cxUnsorted])

theorem start_inflight (s : NodeState) (now : ℚ) (cost : ℕ) :
    (s.start now cost).inflight = s.inflight + 1 := rfl

theorem start_phys (s : NodeState) (now : ℚ) (cost : ℕ) :
    (s.start now cost).max_physical_concurrency = s.max_physical_concurrency := rfl

theorem physP_refill (now : ℚ) (s : NodeState)
    (h : s.inflight ≤ s.max_physical_concurrency) :
    (s.refill now).inflight ≤ (s.refill now).max_physical_concurrency := by
  rw [refill_inflight, refill_phys]
  exact h

theorem physP_start (now : ℚ) (cost : ℕ) (cap : ℤ) (s : NodeState)
    (_h : s.inflight ≤ s.max_physical_concurrency)
    (hok : (s.can_start now cost cap).2.1 = true) :
    ((s.refill now).start now cost).inflight ≤
      ((s.refill now).start now cost).max_physical_concurrency := by
  have hg := can_start_true_guard s now cost cap hok
  have hlt : ((s.refill now).inflight : ℤ) <
      ((s.refill now).max_physical_concurrency : ℤ) :=
    lt_of_lt_of_le hg (min_le_left _ _)
  have hn : (s.refill now).inflight < (s.refill now).max_physical_concurrency := by
    exact_mod_cast hlt
  rw [start_inflight, start_phys]
  omega

theorem capP_refill (now : ℚ) (L : ℤ) (s : NodeState)
    (h : (s.inflight : ℤ) ≤ min (s.max_physical_concurrency : ℤ) L) :
    ((s.refill now).inflight : ℤ) ≤
      min ((s.refill now).max_physical_concurrency : ℤ) L := by
  rw [refill_inflight, refill_phys]
  exact h

theorem capP_start (now : ℚ) (cost : ℕ) (L : ℤ) (s : NodeState)
    (_h : (s.inflight : ℤ) ≤ min (s.max_physical_concurrency : ℤ) L)
    (hok : (s.can_start now cost L).2.1 = true) :
    (((s.refill now).start now cost).inflight : ℤ) ≤
      min (((s.refill now).start now cost).max_physical_concurrency : ℤ) L := by
  have hg := can_start_true_guard s now cost L hok
  rw [start_inflight, start_phys]
  push_cast
  omega

theorem physP_finish (s : NodeState)
    (h : s.inflight ≤ s.max_physical_concurrency) :
    s.finish.inflight ≤ s.finish.max_physical_concurrency := by
  rw [finish_phys]
  exact le_trans (finish_inflight_le s) h

theorem capP_finish (L : ℤ) (s : NodeState)
    (h : (s.inflight : ℤ) ≤ min (s.max_physical_concurrency : ℤ) L) :
    (s.finish.inflight : ℤ) ≤ min (s.finish.max_physical_concurrency : ℤ) L := by
  rw [finish_phys]
  have := finish_inflight_le s
  have hcast : (s.finish.inflight : ℤ) ≤ (s.inflight : ℤ) := by exact_mod_cast this
  exact le_trans hcast h

theorem admissionLoop_phys {σ : Type} (oracle : ℕ → List ℕ) (cap : ℤ) :
    ∀ (q : List Request) (total att : ℕ) (st : SimState σ),
      (∀ nd ∈ st.nodes, nd.inflight ≤ nd.max_physical_concurrency) →
      ∀ nd ∈ (admissionLoop oracle cap q total att st).nodes,
        nd.inflight ≤ nd.max_physical_concurrency := by
  intro q
  induction q with
  | nil => intro total att st h; exact h
  | cons r rest ih =>
    intro total att st h
    simp only [admissionLoop]
    split
    · split
      · apply ih
        exact tryNodes_pres st.now r.total_tokens cap _
          (physP_refill st.now) (physP_start st.now r.total_tokens cap) _ _ _ h
      · exact tryNodes_pres st.now r.total_tokens cap _
          (physP_refill st.now) (physP_start st.now r.total_tokens cap) _ _ _ h
    · exact h

theorem admissionLoop_capBound {σ : Type} (oracle : ℕ → List ℕ) (L : ℤ) :
    ∀ (q : List Request) (total att : ℕ) (st : SimState σ),
      total = sumInflight st.nodes → (total : ℤ) ≤ L →
      (∀ nd ∈ st.nodes, (nd.inflight : ℤ) ≤ min (nd.max_physical_concurrency : ℤ) L) →
      ((sumInflight (admissionLoop oracle L q total att st).nodes : ℤ) ≤ L ∧
        ∀ nd ∈ (admissionLoop oracle L q total att st).nodes,
          (nd.inflight : ℤ) ≤ min (nd.max_physical_concurrency : ℤ) L) := by
  intro q
  induction q with
  | nil =>
    intro total att st htot hle h
    simp only [admissionLoop]
    exact ⟨by rw [← htot]; exact hle, h⟩
  | cons r rest ih =>
    intro total att st htot hle h
    simp only [admissionLoop]
    split
    · next hlt =>
      split
      · next i heq =>
        apply ih (total + 1) (att + 1)
        · show total + 1 = sumInflight
            (tryNodes st.now r.total_tokens L
              (sortSample st.nodes (oracle att)) st.nodes "CONCURRENCY").1
          rw [tryNodes_sum, heq]
          simp [htot]
        · push_cast
          omega
        · exact tryNodes_pres st.now r.total_tokens L _
            (capP_refill st.now L) (capP_start st.now r.total_tokens L) _ _ _ h
      · next heq =>
        constructor
        · show (sumInflight
            (tryNodes st.now r.total_tokens L
              (sortSample st.nodes (oracle att)) st.nodes "CONCURRENCY").1 : ℤ) ≤ L
          rw [tryNodes_sum, heq]
          simp only [Option.isSome_none, Bool.false_eq_true, if_false, Nat.add_zero]
          rw [← htot]
          exact hle
        · exact tryNodes_pres st.now r.total_tokens L _
            (capP_refill st.now L) (capP_start st.now r.total_tokens L) _ _ _ h
    · exact ⟨by rw [← htot]; exact hle, h⟩

theorem tick_phys {σ : Type} (ops : ControllerOps σ) (oracle : ℕ → ℕ → List ℕ)
    (st : SimState σ) (h : ∀ nd ∈ st.nodes, nd.inflight ≤ nd.max_physical_concurrency) :
    ∀ nd ∈ (tick ops oracle st).nodes, nd.inflight ≤ nd.max_physical_concurrency := by
  have h2 := completionsPhase_nodes_pres
    (fun nd => nd.inflight ≤ nd.max_physical_concurrency)
    physP_finish (arrivalsPhase st) h
  have f3 := timeoutsLoop_fields simTimeout (completionsPhase (arrivalsPhase st)).queue
    (completionsPhase (arrivalsPhase st))
  have h3 : ∀ nd ∈ (timeoutsPhase simTimeout (completionsPhase (arrivalsPhase st))).nodes,
      nd.inflight ≤ nd.max_physical_concurrency := by
    show ∀ nd ∈ (timeoutsLoop simTimeout (completionsPhase (arrivalsPhase st)).queue
      (completionsPhase (arrivalsPhase st))).nodes, _
    rw [f3.2.2.1]
    exact h2
  have h4 := admissionLoop_phys
    (oracle (timeoutsPhase simTimeout (completionsPhase (arrivalsPhase st))).tickCount)
    (ops.limit (timeoutsPhase simTimeout (completionsPhase (arrivalsPhase st))).ctrl)
    (timeoutsPhase simTimeout (completionsPhase (arrivalsPhase st))).queue
    (sumInflight (timeoutsPhase simTimeout (completionsPhase (arrivalsPhase st))).nodes)
    0 (timeoutsPhase simTimeout (completionsPhase (arrivalsPhase st))) h3
  set st4 := admissionPhase ops oracle
    (timeoutsPhase simTimeout (completionsPhase (arrivalsPhase st))) with hst4
  set st5 : SimState σ :=
    { st4 with peakConcurrency := max st4.peakConcurrency (sumInflight st4.nodes) }
    with hst5
  have f6 := rolloverLoop_fields ops 2 st5
  show ∀ nd ∈ (rolloverLoop ops 2 st5).nodes, _
  rw [f6.2.2.2.2.2]
  exact h4

theorem rolloverLoop_ctrl_fixed :
    ∀ (fuel : ℕ) (st : SimState FixedController),
      (rolloverLoop fixedOps fuel st).ctrl = st.ctrl := by
  intro fuel
  induction fuel with
  | zero => intro st; rfl
  | succ n ih =>
    intro st
    simp only [rolloverLoop]
    split
    · exact ih (rolloverStep fixedOps st)
    · rfl

theorem postPhases_cap (oracle : ℕ → ℕ → List ℕ) (L : ℤ)
    (st3 : SimState FixedController) (hctrl3 : st3.ctrl = ⟨L⟩)
    (hsum3 : (sumInflight st3.nodes : ℤ) ≤ L)
    (hnd3 : ∀ nd ∈ st3.nodes,
      (nd.inflight : ℤ) ≤ min (nd.max_physical_concurrency : ℤ) L) :
    (rolloverLoop fixedOps 2
        { admissionPhase fixedOps oracle st3 with
          peakConcurrency := max (admissionPhase fixedOps oracle st3).peakConcurrency
            (sumInflight (admissionPhase fixedOps oracle st3).nodes) }).ctrl = ⟨L⟩ ∧
      ((sumInflight (rolloverLoop fixedOps 2
          { admissionPhase fixedOps oracle st3 with
            peakConcurrency := max (admissionPhase fixedOps oracle st3).peakConcurrency
              (sumInflight (admissionPhase fixedOps oracle st3).nodes) }).nodes : ℤ) ≤ L ∧
        ∀ nd ∈ (rolloverLoop fixedOps 2
            { admissionPhase fixedOps oracle st3 with
              peakConcurrency := max (admissionPhase fixedOps oracle st3).peakConcurrency
                (sumInflight (admissionPhase fixedOps oracle st3).nodes) }).nodes,
          (nd.inflight : ℤ) ≤ min (nd.max_physical_concurrency : ℤ) L) := by
  have hadm := admissionLoop_capBound (oracle st3.tickCount) L st3.queue
    (sumInflight st3.nodes) 0 st3 rfl hsum3 hnd3
  have hphase : admissionPhase fixedOps oracle st3 =
      admissionLoop (oracle st3.tickCount) L st3.queue (sumInflight st3.nodes) 0 st3 := by
    unfold admissionPhase
    rw [hctrl3]
    rfl
  have f4 := admissionLoop_fields (oracle st3.tickCount) L st3.queue
    (sumInflight st3.nodes) 0 st3
  have hctrl4 : (admissionPhase fixedOps oracle st3).ctrl = ⟨L⟩ := by
    rw [hphase, f4.2.2.2.1]
    exact hctrl3
  have hsum4 : (sumInflight (admissionPhase fixedOps oracle st3).nodes : ℤ) ≤ L := by
    rw [hphase]
    exact hadm.1
  have hnd4 : ∀ nd ∈ (admissionPhase fixedOps oracle st3).nodes,
      (nd.inflight : ℤ) ≤ min (nd.max_physical_concurrency : ℤ) L := by
    rw [hphase]
    exact hadm.2
  have f6 := rolloverLoop_fields fixedOps 2
    { admissionPhase fixedOps oracle st3 with
      peakConcurrency := max (admissionPhase fixedOps oracle st3).peakConcurrency
        (sumInflight (admissionPhase fixedOps oracle st3).nodes) }
  refine ⟨?_, ?_, ?_⟩
  · rw [rolloverLoop_ctrl_fixed]
    exact hctrl4
  · rw [f6.2.2.2.2.2]
    exact hsum4
  · rw [f6.2.2.2.2.2]
    exact hnd4

theorem tick_cap (oracle : ℕ → ℕ → List ℕ) (L : ℤ) (st : SimState FixedController)
    (hctrl : st.ctrl = ⟨L⟩) (hsum : (sumInflight st.nodes : ℤ) ≤ L)
    (hnd : ∀ nd ∈ st.nodes, (nd.inflight : ℤ) ≤ min (nd.max_physical_concurrency : ℤ) L) :
    (tick fixedOps oracle st).ctrl = ⟨L⟩ ∧
      ((sumInflight (tick fixedOps oracle st).nodes : ℤ) ≤ L ∧
        ∀ nd ∈ (tick fixedOps oracle st).nodes,
          (nd.inflight : ℤ) ≤ min (nd.max_physical_concurrency : ℤ) L) := by
  have h2 := completionsPhase_nodes_pres
    (fun nd => (nd.inflight : ℤ) ≤ min (nd.max_physical_concurrency : ℤ) L)
    (capP_finish L) (arrivalsPhase st) hnd
  have hs2 : (sumInflight (completionsPhase (arrivalsPhase st)).nodes : ℤ) ≤ L := by
    have hle := completionsPhase_sum (arrivalsPhase st)
    have hcast : (sumInflight (completionsPhase (arrivalsPhase st)).nodes : ℤ) ≤
        (sumInflight (arrivalsPhase st).nodes : ℤ) := by exact_mod_cast hle
    exact le_trans hcast hsum
  have f3 := timeoutsLoop_fields simTimeout (completionsPhase (arrivalsPhase st)).queue
    (completionsPhase (arrivalsPhase st))
  have hctrl3 : (timeoutsPhase simTimeout (completionsPhase (arrivalsPhase st))).ctrl =
      (⟨L⟩ : FixedController) := by
    refine f3.2.2.2.1.trans ?_
    rw [(completionsPhase_fields (arrivalsPhase st)).2.2.2.2.2.1]
    exact hctrl
  have heqn : (timeoutsPhase simTimeout (completionsPhase (arrivalsPhase st))).nodes =
      (completionsPhase (arrivalsPhase st)).nodes := f3.2.2.1
  have hsum3 : (sumInflight
      (timeoutsPhase simTimeout (completionsPhase (arrivalsPhase st))).nodes : ℤ) ≤ L := by
    rw [heqn]
    exact hs2
  have hnd3 : ∀ nd ∈ (timeoutsPhase simTimeout (completionsPhase (arrivalsPhase st))).nodes,
      (nd.inflight : ℤ) ≤ min (nd.max_physical_concurrency : ℤ) L := by
    rw [heqn]
    exact h2
  exact postPhases_cap oracle L
    (timeoutsPhase simTimeout (completionsPhase (arrivalsPhase st))) hctrl3 hsum3 hnd3

theorem runTicks_phys {σ : Type} (ops : ControllerOps σ) (oracle : ℕ → ℕ → List ℕ) :
    ∀ (n : ℕ) (st : SimState σ),
      (∀ nd ∈ st.nodes, nd.inflight ≤ nd.max_physical_concurrency) →
      ∀ nd ∈ (runTicks ops oracle n st).nodes,
        nd.inflight ≤ nd.max_physical_concurrency := by
  intro n
  induction n with
  | zero => intro st h; exact h
  | succ k ih => intro st h; exact ih (tick ops oracle st) (tick_phys ops oracle st h)

theorem runTicks_cap (oracle : ℕ → ℕ → List ℕ) (L : ℤ) :
    ∀ (n : ℕ) (st : SimState FixedController),
      st.ctrl = ⟨L⟩ → (sumInflight st.nodes : ℤ) ≤ L →
      (∀ nd ∈ st.nodes, (nd.inflight : ℤ) ≤ min (nd.max_physical_concurrency : ℤ) L) →
      ((sumInflight (runTicks fixedOps oracle n st).nodes : ℤ) ≤ L ∧
        ∀ nd ∈ (runTicks fixedOps oracle n st).nodes,
          (nd.inflight : ℤ) ≤ min (nd.max_physical_concurrency : ℤ) L) := by
  intro n
  induction n with
  | zero => intro st _ hs hn; exact ⟨hs, hn⟩
  | succ k ih =>
    intro st hc hs hn
    have h := tick_cap oracle L st hc hs hn
    exact ih (tick fixedOps oracle st) h.1 h.2.1 h.2.2

set_option maxRecDepth 200000 in
/-- C1 counterexample: a run of the actual tick loop with the default AIMD
controller.  Eight long-running requests are admitted in tick 0 under the
initial limit 8; at the first metrics window the simulated-GC frequency (8)
exceeds the congestion threshold 4, so the controller multiplicatively
decreases its window to 5.  The already-admitted work stays in flight, so the
reachable state after 51 ticks has sum(inflight) = 8 strictly above the
controller limit 5, and the single node's in-flight count 8 also exceeds
min(physicalConcurrency, controllerLimit) = min(20, 5) = 5: both bounds of the
claim fail once the limit can decrease between windows. -/
theorem c1_counterexample :
    sumInflight cxFinal.nodes = 8 ∧
    cxFinal.ctrl.current_limit = 5 ∧
    ¬ ((sumInflight cxFinal.nodes : ℤ) ≤ cxFinal.ctrl.current_limit) ∧
    (cxFinal.nodes.map NodeState.inflight = [8] ∧
      cxFinal.nodes.map NodeState.max_physical_concurrency = [20] ∧
      ¬ ((8 : ℤ) ≤ min (20 : ℤ) cxFinal.ctrl.current_limit)) := by
  with_unfolding_all decide

/-- C1 (amended): for every controller, every sampling choice and every input,
each node's in-flight count never exceeds its physical concurrency at any
reachable state of the tick loop; and for the Fixed controller (whose limit L
never changes) additionally sum(inflight) ≤ L and
inflight(node) ≤ min(physicalConcurrency(node), L) hold at every reachable
state.  For controllers whose limit can decrease between windows (AIMD), the
controller-limit part of the claim fails right after a decrease (see the
counterexample): the admission loop stops admitting but does not evict. -/
theorem c1_inflight_bounds :
    (∀ {σ : Type} (ops : ControllerOps σ) (oracle : ℕ → ℕ → List ℕ)
        (reqs : List Request) (nodes0 : List NodeState) (c0 : σ) (n : ℕ),
      (∀ nd ∈ nodes0, nd.inflight ≤ nd.max_physical_concurrency) →
      ∀ nd ∈ (runTicks ops oracle n (initState reqs nodes0 c0)).nodes,
        nd.inflight ≤ nd.max_physical_concurrency) ∧
    (∀ (L : ℤ) (oracle : ℕ → ℕ → List ℕ) (reqs : List Request)
        (nodes0 : List NodeState) (n : ℕ),
      (∀ nd ∈ nodes0, (nd.inflight : ℤ) ≤ min (nd.max_physical_concurrency : ℤ) L) →
      (sumInflight nodes0 : ℤ) ≤ L →
      ((sumInflight (runTicks fixedOps oracle n (initState reqs nodes0 ⟨L⟩)).nodes : ℤ)
          ≤ L ∧
        ∀ nd ∈ (runTicks fixedOps oracle n (initState reqs nodes0 ⟨L⟩)).nodes,
          (nd.inflight : ℤ) ≤ min (nd.max_physical_concurrency : ℤ) L)) := by
  constructor
  · intro σ ops oracle reqs nodes0 c0 n h
    exact runTicks_phys ops oracle n (initState reqs nodes0 c0) h
  · intro L oracle reqs nodes0 n hnd hsum
    exact runTicks_cap oracle L n (initState reqs nodes0 ⟨L⟩) rfl hsum hnd

/-- C1 witness: the amended bounds applied to concrete runs — the AIMD
counterexample run (physical bound still holds there) and a Fixed-controller
run with limit 95. -/
theorem c1_inflight_bounds_witness :
    (∀ nd ∈ cxFinal.nodes, nd.inflight ≤ nd.max_physical_concurrency) ∧
    ((sumInflight (runTicks fixedOps cxOracle 60
        (initState cxReqs [cxNode] ⟨95⟩)).nodes : ℤ) ≤ 95 ∧
      ∀ nd ∈ (runTicks fixedOps cxOracle 60 (initState cxReqs [cxNode] ⟨95⟩)).nodes,
        (nd.inflight : ℤ) ≤ min (nd.max_physical_concurrency : ℤ) 95) := by
  constructor
  · exact c1_inflight_bounds.1 aimdOps cxOracle cxReqs [cxNode] cxCtrl 51
      (by intro nd hnd
          rcases List.mem_singleton.mp hnd with rfl
          exact Nat.zero_le _)
  · exact c1_inflight_bounds.2 95 cxOracle cxReqs [cxNode] 60
      (by intro nd hnd
          rcases List.mem_singleton.mp hnd with rfl
          simp [cxNode, NodeState.mk0])
      (by simp [cxNode, NodeState.mk0, sumInflight])

/-! ## Claim C9 -/

/-- C9 counterexample: an input that is not sorted by arrival timestamp is not
rejected by the run driver — `run_simulation` performs no sortedness check and
returns a completed run. -/
theorem c9_counterexample :
    ¬ ArrivalsSorted cxUnsorted ∧
    exceptIsOk (runSimulation fixedOps cxOracle cxUnsorted
      (FixedController.mk 95) [cxNode]) = true := by
  constructor
  · intro h
    simp only [ArrivalsSorted, cxUnsorted, List.map_cons, List.map_nil,
      List.chain'_cons, List.chain'_singleton, and_true] at h
    norm_num at h
  · rfl

/-- C9 (amended): the run driver fails before executing any tick exactly when
the input sequence is empty — `max(r.arrival_ts for r in reqs)` is undefined
on an empty sequence, so no simulation state is produced; every non-empty
input (sorted or not) starts a run normally: unsorted inputs are not
validated or rejected. -/
theorem c9_driver_input_validation {σ : Type} (ops : ControllerOps σ)
    (oracle : ℕ → ℕ → List ℕ) (c0 : σ) (nodes0 : List NodeState) :
    runSimulation ops oracle [] c0 nodes0 = .error .emptyInput ∧
    ∀ reqs : List Request, reqs ≠ [] →
      exceptIsOk (runSimulation ops oracle reqs c0 nodes0) = true := by
  refine ⟨rfl, ?_⟩
  intro reqs h
  match reqs with
  | [] => exact absurd rfl h
  | r :: rs => rfl

/-- C9 witness: the unsorted two-request input is non-empty, and the driver
runs it rather than rejecting it. -/
theorem c9_driver_input_validation_witness :
    runSimulation fixedOps cxOracle [] (FixedController.mk 95) [cxNode] =
      .error .emptyInput ∧
    exceptIsOk (runSimulation fixedOps cxOracle cxUnsorted
      (FixedController.mk 95) [cxNode]) = true := by
  have h := c9_driver_input_validation fixedOps cxOracle
    (FixedController.mk 95) [cxNode]
  exact ⟨h.1, h.2 cxUnsorted (by simp [cxUnsorted])⟩

end MoonCell
